import Mathlib

/-!
Verification of the faceted filtering engine of the Reports-Dashboard
repository (src/app.js, two-phase draft/apply variant).

JavaScript strings are embedded as `List Char`; a row of the loaded CSV is
an association list from column name to raw cell value (a missing key, i.e.
`undefined` in JS, is `Option.none` on lookup).  All definitions below are
translated from src/app.js; host-language primitives that the code calls
(`String.prototype.localeCompare`, `Number`, `JSON.parse`, the external CSV
parser) are modelled explicitly where a claim depends on them, and each such
model is marked in its doc comment.
-/

namespace Dashboard

/-- JavaScript string, embedded as its list of characters. -/
abbrev JStr := List Char

/-- Coerce a Lean string literal to the embedding. -/
def chars (s : String) : JStr := s.data

/-- One CSV row: association list from column name to raw cell value
(`row[c]` in JS; a key that is absent reads as `undefined`, i.e. `none`). -/
abbrev Row := List (JStr × JStr)

/-- JS property read `row[c]`. -/
def rowGet (r : Row) (c : JStr) : Option JStr :=
  match r.find? (fun p => p.1 == c) with
  | some p => some p.2
  | none => none

/-- Model of `String.prototype.trim` on the embedded strings (drop leading
and trailing whitespace). -/
def trimCL (l : JStr) : JStr :=
  ((l.dropWhile Char.isWhitespace).reverse.dropWhile Char.isWhitespace).reverse

/-- Model of `String.prototype.toLowerCase` (basic-latin case folding). -/
def lowerCL (l : JStr) : JStr := l.map Char.toLower

/-- Does `hay` start with `needle`? (helper for substring containment). -/
def leadsWith : JStr → JStr → Bool
  | [], _ => true
  | _ :: _, [] => false
  | n :: ns, h :: hs => n == h && leadsWith ns hs

/-- Model of `String.prototype.includes`: contiguous substring test. -/
def containsCL (hay needle : JStr) : Bool :=
  match hay with
  | [] => needle.isEmpty
  | _ :: hs => leadsWith needle hay || containsCL hs needle

/-- app.js `normalizeValue`: `null`/`undefined` become the empty string,
anything else is converted to a string and trimmed. -/
def normalizeValue : Option JStr → JStr
  | none => []
  | some s => trimCL s

/-- app.js `toLower`: `normalizeValue` then lower-case. -/
def toLowerJS (v : Option JStr) : JStr := lowerCL (normalizeValue v)

/-- app.js `FORCE_MULTI_COLUMNS`: columns that are always multi-select. -/
def FORCE_MULTI_COLUMNS : List JStr := [chars "model"]

/-- app.js `isForcedMulti`. -/
def isForcedMulti (col : JStr) : Bool :=
  FORCE_MULTI_COLUMNS.contains (lowerCL (normalizeValue (some col)))

/-- Value stored in a filter descriptor: a JS string or a JS array of
strings (`value: "" | string[]` in app.js; preset payloads may put either
shape under either type tag). -/
inductive JSVal where
  | str (s : JStr)
  | arr (l : List JStr)
deriving DecidableEq, Repr

/-- JS `String(v)` on a descriptor value: arrays stringify as the
comma-join of their elements. -/
def jsValToString : JSVal → JStr
  | .str s => s
  | .arr l => (l.intersperse (chars ",")).flatten

/-- One per-column filter descriptor
(`{ type: "text"|"multi", value: ""|string[], collapsed: boolean }`). -/
structure FilterDesc where
  type : JStr
  value : JSVal
  collapsed : Bool
deriving DecidableEq, Repr

/-- Filter state (`appliedState` / `draftState` in app.js): the global
search string plus an insertion-ordered object from column name to
descriptor, embedded as an association list. -/
structure FilterState where
  global : JStr
  columns : List (JStr × FilterDesc)
deriving DecidableEq, Repr

/-- JS object property read `state.columns[c]`. -/
def lookupCol (st : FilterState) (c : JStr) : Option FilterDesc :=
  match st.columns.find? (fun p => p.1 == c) with
  | some p => some p.2
  | none => none

/-- The per-column clause of `rowMatchesApplied` (app.js lines 141-158),
as a function of the column's descriptor and the row's normalized value:
a missing descriptor, an empty text query, an empty or non-array
multi-selection, and an unrecognized type tag all impose no constraint. -/
def columnPassDesc (f : Option FilterDesc) (val : JStr) : Bool :=
  match f with
  | none => true
  | some f =>
    if f.type == chars "text" then
      let q := normalizeValue (some (jsValToString f.value))
      if q.isEmpty then true
      else containsCL (lowerCL (normalizeValue (some val))) (lowerCL (normalizeValue (some q)))
    else if f.type == chars "multi" then
      let selected := match f.value with | .arr l => l | _ => []
      if selected.isEmpty then true
      else selected.contains val
    else true

/-- The per-column clause of `rowMatchesApplied` at a given column. -/
def columnPassOf (st : FilterState) (row : Row) (c : JStr) : Bool :=
  columnPassDesc (lookupCol st c) (normalizeValue (rowGet row c))

/-- The global-search clause of `rowMatchesApplied` (app.js lines 129-136):
if the trimmed, lower-cased global string is non-empty, some column's value
must contain it. -/
def globalPass (st : FilterState) (columns : List JStr) (row : Row) : Bool :=
  let g := toLowerJS (some st.global)
  if g.isEmpty then true
  else columns.any (fun c => containsCL (toLowerJS (rowGet row c)) g)

/-- app.js `if (excludeCol && c === excludeCol) continue`: a column is
skipped only when `excludeCol` is truthy (non-null, non-empty) and equal
to it. -/
def skipCol (excludeCol : Option JStr) (c : JStr) : Bool :=
  match excludeCol with
  | none => false
  | some e => !e.isEmpty && c == e

/-- app.js `rowMatchesApplied(row, excludeCol)` (lines 128-162): the full
applied predicate, AND across columns, evaluated against applied state. -/
def rowMatchesApplied (st : FilterState) (columns : List JStr) (row : Row)
    (excludeCol : Option JStr) : Bool :=
  globalPass st columns row &&
    columns.all (fun c => skipCol excludeCol c || columnPassOf st row c)

/-- A JS `Map` from string to number, embedded as an insertion-ordered
association list with unique keys. -/
abbrev CountMap := List (JStr × Nat)

/-- JS `counts.get(v) || 0`. -/
def mapGet (m : CountMap) (k : JStr) : Nat :=
  match m.find? (fun p => p.1 == k) with
  | some p => p.2
  | none => 0

/-- JS `counts.set(k, n)`: replace in place if the key is present,
otherwise append (insertion order). -/
def mapSet (m : CountMap) (k : JStr) (n : Nat) : CountMap :=
  if m.any (fun p => p.1 == k) then
    m.map (fun p => if p.1 == k then (k, n) else p)
  else m ++ [(k, n)]

/-- The loop body of `getFacetCountsForColumn` (app.js lines 167-172):
scan the raw rows, and for each row that matches the applied predicate
with `col` excluded, bump the count of its normalized (non-empty) value. -/
def facetScan (st : FilterState) (columns : List JStr) (col : JStr) :
    List Row → CountMap → CountMap
  | [], m => m
  | r :: rs, m =>
    if rowMatchesApplied st columns r (some col) then
      let v := normalizeValue (rowGet r col)
      if v.isEmpty then facetScan st columns col rs m
      else facetScan st columns col rs (mapSet m v (mapGet m v + 1))
    else facetScan st columns col rs m

/-- app.js `getFacetCountsForColumn(col)` (lines 165-174). -/
def getFacetCountsForColumn (st : FilterState) (columns : List JStr)
    (rawRows : List Row) (col : JStr) : CountMap :=
  facetScan st columns col rawRows []

/-- app.js `isLowCardinalityByCounts` (lines 176-179): `counts.size` is the
number of keys of the map. -/
def isLowCardinalityByCounts (counts : CountMap) : Bool :=
  counts.length > 0 && counts.length ≤ 30

/-- The type chosen for a fresh descriptor in `ensureStateSchemas`
(app.js line 186): forced-multi or low-cardinality columns get `"multi"`,
everything else `"text"`. -/
def classifyColumnType (col : JStr) (counts : CountMap) : JStr :=
  if isForcedMulti col || isLowCardinalityByCounts counts then chars "multi"
  else chars "text"

/-- JSVal shape test: is the value a JS array? -/
def JSVal.isArr : JSVal → Bool
  | .arr _ => true
  | .str _ => false

/-- The in-place repair applied to an existing descriptor by
`ensureStateSchemas` (app.js lines 190-193 and 204-207): force the multi
type for forced columns, then coerce a value whose shape mismatches the
type tag to the empty value of that tag. -/
def repairDesc (col : JStr) (f : FilterDesc) : FilterDesc :=
  let f := if isForcedMulti col && !(f.type == chars "multi") then
    { f with type := chars "multi", value := .arr [] } else f
  let f := if f.type == chars "multi" && !f.value.isArr then
    { f with value := .arr [] } else f
  let f := if f.type == chars "text" && f.value.isArr then
    { f with value := .str [] } else f
  f

/-- JS object property write `state.columns[c] = desc`: replace in place
if present, otherwise append. -/
def setCol (st : FilterState) (c : JStr) (d : FilterDesc) : FilterState :=
  if st.columns.any (fun p => p.1 == c) then
    { st with columns := st.columns.map (fun p => if p.1 == c then (c, d) else p) }
  else { st with columns := st.columns ++ [(c, d)] }

/-- One iteration of the `ensureStateSchemas` loop (app.js lines 182-209)
over the pair (appliedState, draftState): create the missing descriptors
(typing a fresh applied descriptor from the applied facet counts) and
repair the malformed existing ones. -/
def ensureCol (rawRows : List Row) (allCols : List JStr)
    (st : FilterState × FilterState) (col : JStr) : FilterState × FilterState :=
  let a := st.1
  let a' := match lookupCol a col with
    | none =>
      let counts := getFacetCountsForColumn a allCols rawRows col
      setCol a col { type := classifyColumnType col counts,
                     value := if classifyColumnType col counts == chars "multi"
                              then .arr [] else .str [],
                     collapsed := true }
    | some f => setCol a col (repairDesc col f)
  let d := st.2
  let d' := match lookupCol d col with
    | none =>
      match lookupCol a' col with
      | some fa => setCol d col { fa with collapsed := true }
      | none => d
    | some f => setCol d col (repairDesc col f)
  (a', d')

/-- app.js `ensureStateSchemas()` (lines 181-210). -/
def ensureStateSchemas (rawRows : List Row) (columns : List JStr)
    (st : FilterState × FilterState) : FilterState × FilterState :=
  columns.foldl (ensureCol rawRows columns) st

/-- The draft reclassification performed per column by `buildFiltersUI`
(app.js lines 507-516): recompute the effective type from the applied
facet counts and, when the type flips, reset the draft value to the empty
value of the new type. -/
def reclassDraftCol (rawRows : List Row) (allCols : List JStr)
    (applied : FilterState) (draft : FilterState) (col : JStr) : FilterState :=
  match lookupCol draft col with
  | none => draft
  | some f =>
    let counts := getFacetCountsForColumn applied allCols rawRows col
    if !isForcedMulti col then
      if isLowCardinalityByCounts counts && !(f.type == chars "multi") then
        setCol draft col { f with type := chars "multi", value := .arr [] }
      else if !isLowCardinalityByCounts counts && !(f.type == chars "text") then
        setCol draft col { f with type := chars "text", value := .str [] }
      else draft
    else if !(f.type == chars "multi") then
      setCol draft col { f with type := chars "multi", value := .arr [] }
    else draft

/-- The state effect of app.js `buildFiltersUI()` (lines 491-684):
`ensureStateSchemas` followed by the per-column draft reclassification;
applied state is only read (for facet counts), never written. -/
def buildFiltersUIState (rawRows : List Row) (columns : List JStr)
    (applied draft : FilterState) : FilterState × FilterState :=
  let p := ensureStateSchemas rawRows columns (applied, draft)
  (p.1, columns.foldl (reclassDraftCol rawRows columns p.1) p.2)

/-- The collapsed-stripped image compared by `isDirty` (app.js lines
109-116): `JSON.stringify` of the state after deleting every `collapsed`
flag, which determines exactly the global string plus the ordered
(column, type, value) triples. -/
def stripForDirty (st : FilterState) : JStr × List (JStr × JStr × JSVal) :=
  (st.global, st.columns.map (fun p => (p.1, p.2.type, p.2.value)))

/-- app.js `isDirty()` (lines 109-116). -/
def isDirty (applied draft : FilterState) : Bool :=
  !(stripForDirty applied == stripForDirty draft)

/-- app.js `sortState` (`{ col: null | string, dir: "asc" | "desc" }`). -/
structure SortState where
  col : Option JStr
  dir : JStr
deriving DecidableEq, Repr

/-- Value of a digit character. -/
def digitVal (c : Char) : Nat := c.toNat - 48

/-- Numeric value of a digit run. -/
def digitsToNat (l : JStr) : Nat :=
  l.foldl (fun acc c => acc * 10 + digitVal c) 0

/-- A finite JS number as scaled integer: `(m, p)` denotes `m * 10 ^ p`. -/
abbrev JsNum := Int × Int

/-- Exponent part of a JS numeric literal (`e`/`E`, optional sign, at
least one digit, consuming the whole rest). -/
def parseExpPart : JStr → Option Int
  | [] => none
  | '+' :: r => if !r.isEmpty && r.all Char.isDigit then some (digitsToNat r) else none
  | '-' :: r => if !r.isEmpty && r.all Char.isDigit then some (-(digitsToNat r : Int)) else none
  | r => if r.all Char.isDigit then some (digitsToNat r) else none

/-- Unsigned decimal part of the ECMAScript `StrDecimalLiteral` grammar:
`digits [. digits] [exponent]` or `. digits [exponent]`. -/
def parseUnsignedDec (l : JStr) : Option JsNum :=
  let ip := l.takeWhile Char.isDigit
  let rest := l.dropWhile Char.isDigit
  match rest with
  | [] => if ip.isEmpty then none else some ((digitsToNat ip : Int), 0)
  | '.' :: r2 =>
    let fp := r2.takeWhile Char.isDigit
    let r3 := r2.dropWhile Char.isDigit
    if ip.isEmpty && fp.isEmpty then none
    else
      let m : Int := (digitsToNat ip) * 10 ^ fp.length + digitsToNat fp
      match r3 with
      | [] => some (m, -(fp.length : Int))
      | e :: r4 =>
        if e == 'e' || e == 'E' then
          match parseExpPart r4 with
          | some ex => some (m, ex - fp.length)
          | none => none
        else none
  | e :: r2 =>
    if (e == 'e' || e == 'E') && !ip.isEmpty then
      match parseExpPart r2 with
      | some ex => some ((digitsToNat ip : Int), ex)
      | none => none
    else none

/-- Is the character a valid digit in base `b` (16, 8 or 2)? -/
def isBaseDigit (b : Nat) (c : Char) : Bool :=
  if b == 16 then c.isDigit || ('a' ≤ c && c ≤ 'f') || ('A' ≤ c && c ≤ 'F')
  else if b == 8 then '0' ≤ c && c ≤ '7'
  else c == '0' || c == '1'

/-- Value of a base-`b` digit character. -/
def baseDigitVal (c : Char) : Nat :=
  if c.isDigit then digitVal c
  else if 'a' ≤ c && c ≤ 'f' then c.toNat - 87
  else c.toNat - 55

/-- Non-decimal integer literal body (after `0x`/`0o`/`0b`). -/
def parseRadix (b : Nat) (l : JStr) : Option JsNum :=
  if !l.isEmpty && l.all (isBaseDigit b) then
    some ((l.foldl (fun acc c => acc * b + baseDigitVal c) 0 : Int), 0)
  else none

/-- Model of ECMAScript `Number(s)` restricted to finite results: `some`
exactly when the conversion yields a finite number, carrying its value.
The empty (or whitespace-only) string converts to `0`; `Infinity`,
`-Infinity` and `NaN` yield `none`. -/
def jsNumberFinite (l : JStr) : Option JsNum :=
  match trimCL l with
  | [] => some (0, 0)
  | '+' :: r => if r == chars "Infinity" then none else parseUnsignedDec r
  | '-' :: r =>
    if r == chars "Infinity" then none
    else match parseUnsignedDec r with
      | some (m, p) => some (-m, p)
      | none => none
  | '0' :: x :: r =>
    if x == 'x' || x == 'X' then parseRadix 16 r
    else if x == 'o' || x == 'O' then parseRadix 8 r
    else if x == 'b' || x == 'B' then parseRadix 2 r
    else parseUnsignedDec ('0' :: x :: r)
  | r => if r == chars "Infinity" then none else parseUnsignedDec r

/-- Sign of the comparison of two scaled integers (`an - bn` in app.js,
which only feeds the sort through its sign). -/
def cmpJsNum : JsNum → JsNum → Int
  | (m1, p1), (m2, p2) =>
    let a := if p1 ≥ p2 then m1 * 10 ^ (p1 - p2).toNat else m1
    let b := if p1 ≥ p2 then m2 else m2 * 10 ^ (p2 - p1).toNat
    if a < b then -1 else if b < a then 1 else 0

/-- Lexicographic comparison of character lists by code point. -/
def cmpChars : JStr → JStr → Int
  | [], [] => 0
  | [], _ :: _ => -1
  | _ :: _, [] => 1
  | a :: as, b :: bs =>
    if a.val < b.val then -1 else if b.val < a.val then 1 else cmpChars as bs

/-- A segment of a string under numeric-aware collation: a maximal digit
run (as its value) or a maximal digit-free run. -/
abbrev Segment := Sum Nat JStr

/-- Split into maximal digit / non-digit runs (fuel-driven; the fuel
`l.length` always suffices since every step consumes a character). -/
def segmentsAux : Nat → JStr → List Segment
  | 0, _ => []
  | _, [] => []
  | fuel + 1, c :: rest =>
    if c.isDigit then
      Sum.inl (digitsToNat ((c :: rest).takeWhile Char.isDigit)) ::
        segmentsAux fuel ((c :: rest).dropWhile Char.isDigit)
    else
      Sum.inr ((c :: rest).takeWhile (fun x => !x.isDigit)) ::
        segmentsAux fuel ((c :: rest).dropWhile (fun x => !x.isDigit))

/-- Segment decomposition of a string. -/
def segments (l : JStr) : List Segment := segmentsAux l.length l

/-- Compare segment lists: numeric segments compare by value, textual
segments by code point, and a numeric segment sorts before a textual one. -/
def cmpSegments : List Segment → List Segment → Int
  | [], [] => 0
  | [], _ :: _ => -1
  | _ :: _, [] => 1
  | x :: xs, y :: ys =>
    match x, y with
    | .inl m, .inl n =>
      if m < n then -1 else if n < m then 1 else cmpSegments xs ys
    | .inl _, .inr _ => -1
    | .inr _, .inl _ => 1
    | .inr a, .inr b =>
      let c := cmpChars a b
      if c == 0 then cmpSegments xs ys else c

/-- Model of `av.localeCompare(bv, undefined, { numeric: true,
sensitivity: "base" })` (app.js line 370): the host's locale-aware
collation is modelled as case-insensitive natural ordering — case-fold
both strings, then compare their digit-run segment decompositions, digit
runs numerically. -/
def localeCompareModel (a b : JStr) : Int :=
  cmpSegments (segments (lowerCL a)) (segments (lowerCL b))

/-- The comparator of app.js `sortRows` (lines 359-371), before the
direction sign flip: numeric when both values convert to finite numbers
and neither is empty (`aNum`/`bNum` in the source), otherwise the
collator. -/
def rowCmp (col : JStr) (a b : Row) : Int :=
  let av := normalizeValue (rowGet a col)
  let bv := normalizeValue (rowGet b col)
  let an := jsNumberFinite av
  let bn := jsNumberFinite bv
  let aNum := an.isSome && !av.isEmpty
  let bNum := bn.isSome && !bv.isEmpty
  if aNum && bNum then cmpJsNum (an.getD (0, 0)) (bn.getD (0, 0))
  else localeCompareModel av bv

/-- app.js line 372 `dir === "asc" ? cmp : -cmp`. -/
def dirCmp (dir : JStr) (c : Int) : Int :=
  if dir == chars "asc" then c else -c

/-- Stable insertion preserving the relative order of equal elements. -/
def insertSorted (cmp : Row → Row → Int) (x : Row) : List Row → List Row
  | [] => [x]
  | y :: ys => if cmp x y < 0 then x :: y :: ys else y :: insertSorted cmp x ys

/-- Stable sort by a comparator; models `[...rows].sort(cmp)` (JS array
sort is stable and leaves the input array untouched thanks to the copy). -/
def stableSortBy (cmp : Row → Row → Int) : List Row → List Row
  | [] => []
  | x :: xs => insertSorted cmp x (stableSortBy cmp xs)

/-- app.js `sortRows(rows)` (lines 353-374): pass-through when no sort
column is set (`!sortState.col` is also true for the empty string). -/
def sortRows (st : SortState) (rows : List Row) : List Row :=
  match st.col with
  | none => rows
  | some col =>
    if col.isEmpty then rows
    else stableSortBy (fun a b => dirCmp st.dir (rowCmp col a b)) rows

/-- The whole mutable module-level state of app.js that the pipeline
reads: raw rows, columns, applied and draft filter state, sort state. -/
structure AppState where
  rawRows : List Row
  columns : List JStr
  applied : FilterState
  draft : FilterState
  sort : SortState
deriving Repr

/-- The filtered and sorted row set (app.js lines 433-434:
`rawRows.filter(r => rowMatchesApplied(r, null))` then `sortRows`). -/
def computeFiltered (s : AppState) : List Row :=
  sortRows s.sort (s.rawRows.filter (fun r => rowMatchesApplied s.applied s.columns r none))

/-- Facet counts of a column in a given application state. -/
def stateFacetCounts (s : AppState) (col : JStr) : CountMap :=
  getFacetCountsForColumn s.applied s.columns s.rawRows col

/-- A draft-only edit of one column's filter value (the `input`/`change`
handlers of `buildFiltersUI`, e.g. app.js lines 538-541 and 639-650). -/
def editDraftValue (s : AppState) (c : JStr) (v : JSVal) : AppState :=
  let cols := s.draft.columns.map
    (fun p => if p.1 == c then (p.1, { p.2 with value := v }) else p)
  { s with draft := { s.draft with columns := cols } }

/-- A draft-only edit of the global search string (app.js lines 811-814). -/
def editDraftGlobal (s : AppState) (g : JStr) : AppState :=
  { s with draft := { s.draft with global := g } }

/-- Set every descriptor's `collapsed` flag (the loop of app.js lines
821-824 after commit). -/
def collapseAll (st : FilterState) : FilterState :=
  { st with columns := st.columns.map (fun p => (p.1, { p.2 with collapsed := true })) }

/-- The state effect of the Apply button (app.js lines 816-834): deep-copy
draft into applied, then collapse every descriptor in both. -/
def applyCommit (s : AppState) : AppState :=
  { s with applied := collapseAll s.draft, draft := collapseAll s.draft }

/-- The state effect of a header click (app.js lines 391-393): toggle the
direction on the current sort column, else sort ascending by the new one. -/
def changeSort (s : AppState) (col : JStr) : AppState :=
  if s.sort.col == some col then
    { s with sort := { s.sort with
        dir := if s.sort.dir == chars "asc" then chars "desc" else chars "asc" } }
  else { s with sort := { col := some col, dir := chars "asc" } }

/-- Does the value contain a quote, comma or newline
(app.js line 103)? -/
def hasCsvSpecial (s : JStr) : Bool :=
  s.any (fun c => c == '"' || c == ',' || c == '\n')

/-- JS `s.replaceAll(q, qq)`: double every quote. -/
def doubleQuotes : JStr → JStr
  | [] => []
  | c :: r => if c == '"' then '"' :: '"' :: doubleQuotes r else c :: doubleQuotes r

/-- app.js `escapeCsvValue` (lines 101-107): normalize, then wrap in
quotes with internal quotes doubled exactly when the value contains a
quote, comma or newline. -/
def escapeCsvValue (v : Option JStr) : JStr :=
  let s := normalizeValue v
  if hasCsvSpecial s then '"' :: (doubleQuotes s ++ ['"']) else s

/-- Comma-join of escaped cells (`.map(escapeCsvValue).join(",")`). -/
def csvLine (cells : List (Option JStr)) : JStr :=
  ((cells.map escapeCsvValue).intersperse (chars ",")).flatten

/-- The CSV text produced by app.js `exportFilteredCsv` (lines 687-705):
escaped header line followed by one line per filtered row in column
order, LF-joined. -/
def exportCsvText (columns : List JStr) (rows : List Row) : JStr :=
  let header := csvLine (columns.map some)
  let lines := rows.map (fun r => csvLine (columns.map (fun c => rowGet r c)))
  ((header :: lines).intersperse (chars "\n")).flatten

/-- Quote-aware split on a separator: a separator character splits only
outside double quotes (quote characters are kept for the unquoting pass). -/
def splitQA (sep : Char) : JStr → Bool → List JStr
  | [], _ => [[]]
  | c :: rest, inq =>
    if c == sep && !inq then [] :: splitQA sep rest false
    else
      let inq' := if c == '"' then !inq else inq
      match splitQA sep rest inq' with
      | [] => [[c]]
      | s :: ss => (c :: s) :: ss

/-- Collapse doubled quotes inside a quoted cell body. -/
def collapseQuotes : JStr → JStr
  | [] => []
  | [a] => [a]
  | a :: b :: r =>
    if a == '"' && b == '"' then '"' :: collapseQuotes r
    else a :: collapseQuotes (b :: r)

/-- Unquote one parsed cell: strip the surrounding quotes and collapse
doubled quotes; unquoted cells are taken verbatim. -/
def unquoteField (f : JStr) : JStr :=
  match f with
  | '"' :: rest =>
    collapseQuotes (if rest.getLast? == some '"' then rest.dropLast else rest)
  | _ => f

/-- Modelled from the spec: the external CSV parser (PapaParse with
`header: true, skipEmptyLines: true`) consumed by app.js but not part of
src/ — "parse with header row → produce an ordered column-name sequence
and an ordered sequence of row mappings column→raw value; empty lines
skipped; no automatic type coercion".  Records are split on LF and fields
on commas, both quote-aware; empty lines are skipped; the first record is
the header.  Returns the raw cell matrix (header record first). -/
def parseCsvCells (text : JStr) : List (List JStr) :=
  (((splitQA '\n' text false).filter (fun l => !l.isEmpty)).map
    (fun line => (splitQA ',' line false).map unquoteField))

/-- Header of the parsed CSV (empty when the text has no non-empty line). -/
def parseCsvHeader (text : JStr) : List JStr :=
  match parseCsvCells text with
  | [] => []
  | h :: _ => h

/-- Data records of the parsed CSV. -/
def parseCsvRows (text : JStr) : List (List JStr) :=
  match parseCsvCells text with
  | [] => []
  | _ :: rs => rs

/-- The cell matrix a row list exports as (one row projected to the
declared column order, values normalized as `escapeCsvValue` does before
quoting does not change special-free cells). -/
def projectRows (columns : List JStr) (rows : List Row) : List (List JStr) :=
  rows.map (fun r => columns.map (fun c => normalizeValue (rowGet r c)))

/-- A JSON value (the image of `JSON.parse`). -/
inductive JsonVal where
  | null
  | bool (b : Bool)
  | num (m p : Int)
  | str (s : JStr)
  | arr (l : List JsonVal)
  | obj (l : List (JStr × JsonVal))

/-- JSON whitespace (exactly space, tab, LF, CR). -/
def jsonWs (c : Char) : Bool :=
  c == ' ' || c == '\t' || c == '\n' || c == '\r'

/-- Drop leading JSON whitespace. -/
def skipWs (l : JStr) : JStr := l.dropWhile jsonWs

/-- Hexadecimal digit test. -/
def isHexDigit (c : Char) : Bool :=
  c.isDigit || ('a' ≤ c && c ≤ 'f') || ('A' ≤ c && c ≤ 'F')

/-- Body of a JSON string literal after the opening quote: returns the
decoded characters and the input after the closing quote. -/
def parseJStrBody : JStr → Option (JStr × JStr)
  | [] => none
  | '"' :: rest => some ([], rest)
  | '\\' :: e :: rest =>
    if e == 'u' then
      match rest with
      | h1 :: h2 :: h3 :: h4 :: rest2 =>
        if isHexDigit h1 && isHexDigit h2 && isHexDigit h3 && isHexDigit h4 then
          match parseJStrBody rest2 with
          | some (s, r) =>
            some (Char.ofNat (((baseDigitVal h1 * 16 + baseDigitVal h2) * 16
              + baseDigitVal h3) * 16 + baseDigitVal h4) :: s, r)
          | none => none
        else none
      | _ => none
    else
      let dec : Option Char :=
        if e == '"' then some '"'
        else if e == '\\' then some '\\'
        else if e == '/' then some '/'
        else if e == 'b' then some (Char.ofNat 8)
        else if e == 'f' then some (Char.ofNat 12)
        else if e == 'n' then some '\n'
        else if e == 'r' then some '\r'
        else if e == 't' then some '\t'
        else none
      match dec with
      | some c =>
        match parseJStrBody rest with
        | some (s, r) => some (c :: s, r)
        | none => none
      | none => none
  | c :: rest =>
    if c.toNat < 32 then none
    else
      match parseJStrBody rest with
      | some (s, r) => some (c :: s, r)
      | none => none

/-- A JSON number literal (strict grammar: optional minus, `0` or a
non-zero-led digit run, optional fraction, optional exponent); returns
the scaled-integer value and the rest of the input. -/
def parseJNum (l : JStr) : Option ((Int × Int) × JStr) :=
  let (sgn, l1) : Int × JStr := match l with
    | '-' :: r => (-1, r)
    | r => (1, r)
  let ip := l1.takeWhile Char.isDigit
  let r1 := l1.dropWhile Char.isDigit
  if ip.isEmpty then none
  else if ip.length > 1 && ip.headD '0' == '0' then none
  else
    let (fp, r2) : JStr × JStr := match r1 with
      | '.' :: r => (r.takeWhile Char.isDigit, r.dropWhile Char.isDigit)
      | r => ([], r)
    if r1 ≠ r2 && fp.isEmpty then none
    else
      let m : Int := sgn * ((digitsToNat ip) * 10 ^ fp.length + digitsToNat fp)
      match r2 with
      | e :: r3 =>
        if e == 'e' || e == 'E' then
          let (esgn, r4) : Int × JStr := match r3 with
            | '+' :: r => (1, r)
            | '-' :: r => (-1, r)
            | r => (1, r)
          let ed := r4.takeWhile Char.isDigit
          let r5 := r4.dropWhile Char.isDigit
          if ed.isEmpty then none
          else some ((m, esgn * digitsToNat ed - fp.length), r5)
        else some ((m, -(fp.length : Int)), r2)
      | [] => some ((m, -(fp.length : Int)), [])

mutual

/-- Modelled from the spec: `JSON.parse` as called by `readPresets`
(app.js line 711) is a host builtin, embedded here as a fuel-driven
recursive-descent parser of the JSON grammar (the fuel passed by
`jsonParse` always suffices, as every recursion step consumes input). -/
def parseJVal : Nat → JStr → Option (JsonVal × JStr)
  | 0, _ => none
  | fuel + 1, l =>
    match skipWs l with
    | 'n' :: 'u' :: 'l' :: 'l' :: rest => some (.null, rest)
    | 't' :: 'r' :: 'u' :: 'e' :: rest => some (.bool true, rest)
    | 'f' :: 'a' :: 'l' :: 's' :: 'e' :: rest => some (.bool false, rest)
    | '"' :: rest =>
      match parseJStrBody rest with
      | some (s, r) => some (.str s, r)
      | none => none
    | '[' :: rest =>
      (match skipWs rest with
      | ']' :: r => some (.arr [], r)
      | _ => match parseJItems fuel rest with
        | some (items, r) => some (.arr items, r)
        | none => none)
    | c :: rest =>
      if c == Char.ofNat 123 then
        match skipWs rest with
        | '"' :: _ => (match parseJFields fuel rest with
          | some (fields, r) => some (.obj fields, r)
          | none => none)
        | c2 :: r =>
          if c2 == Char.ofNat 125 then some (.obj [], r) else none
        | [] => none
      else
        match parseJNum (c :: rest) with
        | some ((m, p), r) => some (.num m p, r)
        | none => none
    | [] => none

/-- Comma-separated JSON array items up to the closing bracket. -/
def parseJItems : Nat → JStr → Option (List JsonVal × JStr)
  | 0, _ => none
  | fuel + 1, l =>
    match parseJVal fuel l with
    | some (v, r) =>
      (match skipWs r with
      | ',' :: r2 =>
        (match parseJItems fuel r2 with
        | some (vs, r3) => some (v :: vs, r3)
        | none => none)
      | ']' :: r2 => some ([v], r2)
      | _ => none)
    | none => none

/-- Comma-separated JSON object members up to the closing brace. -/
def parseJFields : Nat → JStr → Option (List (JStr × JsonVal) × JStr)
  | 0, _ => none
  | fuel + 1, l =>
    match skipWs l with
    | '"' :: rest =>
      (match parseJStrBody rest with
      | some (k, r) =>
        (match skipWs r with
        | ':' :: r2 =>
          (match parseJVal fuel r2 with
          | some (v, r3) =>
            (match skipWs r3 with
            | ',' :: r4 =>
              (match parseJFields fuel r4 with
              | some (fs, r5) => some ((k, v) :: fs, r5)
              | none => none)
            | c :: r4 =>
              if c == Char.ofNat 125 then some ([(k, v)], r4) else none
            | [] => none)
          | none => none)
        | _ => none)
      | none => none)
    | _ => none

end

/-- Modelled from the spec: whole-input `JSON.parse(raw)` — parse one
value, demand only trailing whitespace, `none` is a thrown SyntaxError. -/
def jsonParse (raw : JStr) : Option JsonVal :=
  match parseJVal (2 * raw.length + 2) raw with
  | some (v, rest) => if (skipWs rest).isEmpty then some v else none
  | none => none

/-- app.js `readPresets` (lines 708-715) over the modelled store:
`localStorage.getItem` returns `none` when the key is absent; a falsy
(empty) string short-circuits to `[]`, a parse failure is caught and
degrades to `[]`; otherwise the parsed value is returned as-is. -/
def readPresets (stored : Option JStr) : JsonVal :=
  match stored with
  | none => .arr []
  | some raw =>
    if raw.isEmpty then .arr []
    else
      match jsonParse raw with
      | some v => v
      | none => .arr []

/-- Well-typedness of a descriptor as the spec demands it: a `text` tag
holds a string value, a `multi` tag holds an array value (other tags are
unconstrained, as the matcher ignores them). -/
def shapeOk (f : FilterDesc) : Prop :=
  (f.type = chars "text" → ∃ s, f.value = JSVal.str s) ∧
  (f.type = chars "multi" → ∃ l, f.value = JSVal.arr l)

/-- A column is fully initialized in a state: its descriptor exists, is
well-typed, and respects the forced-multi configuration. -/
def wellFormedAt (st : FilterState) (col : JStr) : Prop :=
  ∃ f, lookupCol st col = some f ∧ shapeOk f ∧
    (isForcedMulti col = true → f.type = chars "multi")

/-- The collapsed-flag write of the filter header click (app.js lines
483-486), generalized to setting the flag to a given value; touches
nothing but `collapsed`. -/
def setCollapsed (st : FilterState) (c : JStr) (b : Bool) : FilterState :=
  let cols := st.columns.map
    (fun p => if p.1 == c then (p.1, { p.2 with collapsed := b }) else p)
  { st with columns := cols }

/-! ## Specification-side definitions (written from the spec text, for
refinement claims) and concrete witness data -/

/-- Spec 4.5 step 1, as written: "If the global search string is
non-empty: the row matches only if at least one column's normalized value
case-insensitively contains the (case-insensitive) global string" (the
spec's case-insensitive comparison is `lower` of 4.1, i.e. normalize then
case-fold). -/
def specGlobalOk (st : FilterState) (columns : List JStr) (row : Row) : Prop :=
  normalizeValue (some st.global) ≠ [] →
    ∃ c ∈ columns, containsCL (toLowerJS (rowGet row c)) (toLowerJS (some st.global)) = true

/-- Spec 4.5 step 2, as written, for one column: a text descriptor with
an empty query imposes no constraint, a non-empty query requires the
row's normalized value to case-insensitively contain the normalized
query; a multi descriptor with an empty selection imposes no constraint,
a non-empty selection requires the row's normalized value to be a member
of the selected set. -/
def specColumnOk (st : FilterState) (row : Row) (c : JStr) : Prop :=
  (∀ f q, lookupCol st c = some f → f.type = chars "text" → f.value = JSVal.str q →
    normalizeValue (some q) ≠ [] →
    containsCL (toLowerJS (rowGet row c)) (lowerCL (normalizeValue (some q))) = true) ∧
  (∀ f sel, lookupCol st c = some f → f.type = chars "multi" → f.value = JSVal.arr sel →
    sel ≠ [] → normalizeValue (rowGet row c) ∈ sel)

/-- Spec 4.5, as written: the row matches iff the global clause holds and
every column's clause holds (AND across columns, OR within a column's
multi-select, OR across columns for the global term only). -/
def specRowMatches (st : FilterState) (columns : List JStr) (row : Row) : Prop :=
  specGlobalOk st columns row ∧ ∀ c ∈ columns, specColumnOk st row c

/-- Witness state for the C10 robustness theorem: descriptor of `A`
missing, `B` tagged with an unknown type, `C` multi-tagged with a string
value. -/
def w10st : FilterState :=
  ⟨chars "", [(chars "B", ⟨chars "bogus", .str (chars "zz"), true⟩),
              (chars "C", ⟨chars "multi", .str (chars "zz"), true⟩)]⟩

/-- Witness row for the C10 robustness theorem. -/
def w10row : Row := [(chars "A", chars "x")]

/-- Spec 4.2, as written: the distinct non-empty normalized values a
column takes among the rows matching all other applied filters (the
facet-conditioned cardinality source). -/
def distinctFacetValues (st : FilterState) (columns : List JStr)
    (rows : List Row) (col : JStr) : List JStr :=
  (((rows.filter (fun r => rowMatchesApplied st columns r (some col))).map
    (fun r => normalizeValue (rowGet r col))).filter (fun v => !v.isEmpty)).dedup

/-- Witness rows for the C6 theorems. -/
def w6rows : List Row := [[(chars "A", chars "x")]]

/-- Witness state for the C6 theorems: one text column whose effective
cardinality is low, so reclassification flips it to multi. -/
def w6st : FilterState :=
  ⟨chars "", [(chars "A", ⟨chars "text", .str (chars "hello"), true⟩)]⟩

/-- The descriptor of `A` in `w6st`. -/
def w6desc : FilterDesc := ⟨chars "text", .str (chars "hello"), true⟩

/-- The reclassified draft descriptor of `A`. -/
def w6desc' : FilterDesc := ⟨chars "multi", .arr [], true⟩

/-! ## Generic helper lemmas -/

theorem dropWhile_head_false (p : Char → Bool) (l : JStr) :
    l.dropWhile p = [] ∨ ∃ a t, l.dropWhile p = a :: t ∧ p a = false := by
  induction l with
  | nil => exact Or.inl rfl
  | cons a t ih =>
    by_cases h : p a
    · simpa [List.dropWhile, h] using ih
    · exact Or.inr ⟨a, t, by simp [List.dropWhile, h], by simpa using h⟩

theorem dropWhile_idem (p : Char → Bool) (l : JStr) :
    (l.dropWhile p).dropWhile p = l.dropWhile p := by
  rcases dropWhile_head_false p l with h | ⟨a, t, h, hpa⟩
  · simp [h]
  · simp [h, List.dropWhile, hpa]

theorem trimCL_idem (l : JStr) : trimCL (trimCL l) = trimCL l := by
  unfold trimCL
  set A := l.dropWhile Char.isWhitespace with hA
  set B := A.reverse.dropWhile Char.isWhitespace with hB
  have hBsuf : B <:+ A.reverse := by
    simpa [hB] using List.dropWhile_suffix (l := A.reverse) (p := Char.isWhitespace)
  have hBrevpre : B.reverse <+: A := by
    have := List.reverse_prefix.mpr (by simpa using hBsuf)
    simpa using this
  have step1 : B.reverse.dropWhile Char.isWhitespace = B.reverse := by
    rcases hBrevpre with ⟨u, hu⟩
    match hBr : B.reverse with
    | [] => simp
    | c :: t =>
      have hAc : A = c :: (t ++ u) := by rw [← hu, hBr]; simp
      have : Char.isWhitespace c = false := by
        rcases dropWhile_head_false Char.isWhitespace l with h | ⟨a, t', h, hpa⟩
        · rw [← hA] at h; rw [h] at hAc; simp at hAc
        · rw [← hA] at h; rw [h] at hAc
          obtain ⟨rfl, -⟩ := List.cons.inj hAc
          exact hpa
      simp [List.dropWhile, this]
  rw [step1]
  simp only [List.reverse_reverse]
  rw [hB, dropWhile_idem]

theorem list_all_congr {α : Type} {l : List α} {p q : α → Bool}
    (h : ∀ x ∈ l, p x = q x) : l.all p = l.all q := by
  rw [Bool.eq_iff_iff, List.all_eq_true, List.all_eq_true]
  constructor
  · intro H x hx
    rw [← h x hx]
    exact H x hx
  · intro H x hx
    rw [h x hx]
    exact H x hx

theorem list_any_congr {α : Type} {l : List α} {p q : α → Bool}
    (h : ∀ x ∈ l, p x = q x) : l.any p = l.any q := by
  rw [Bool.eq_iff_iff, List.any_eq_true, List.any_eq_true]
  constructor
  · rintro ⟨x, hx, hpx⟩
    exact ⟨x, hx, by rw [← h x hx]; exact hpx⟩
  · rintro ⟨x, hx, hqx⟩
    exact ⟨x, hx, by rw [h x hx]; exact hqx⟩

/-! ## Matcher structure lemmas -/

theorem lowerCL_eq_nil (l : JStr) : lowerCL l = [] ↔ l = [] := by
  simp [lowerCL]

/-- Unfolding of the per-column clause at a present descriptor. -/
theorem columnPassDesc_some (f : FilterDesc) (val : JStr) :
    columnPassDesc (some f) val =
      (if f.type == chars "text" then
        (if (normalizeValue (some (jsValToString f.value))).isEmpty then true
         else containsCL (lowerCL (normalizeValue (some val)))
           (lowerCL (normalizeValue (some (normalizeValue (some (jsValToString f.value)))))))
      else if f.type == chars "multi" then
        (if (match f.value with | JSVal.arr l => l | _ => []).isEmpty then true
         else (match f.value with | JSVal.arr l => l | _ => []).contains val)
      else true) := rfl

/-- The matcher reads a column's descriptor only through `lookupCol`. -/
theorem columnPassOf_congr {st st' : FilterState} {c : JStr} (row : Row)
    (h : lookupCol st c = lookupCol st' c) :
    columnPassOf st row c = columnPassOf st' row c := by
  unfold columnPassOf; rw [h]

/-- The matcher never reads the `collapsed` flags. -/
theorem lookupCol_collapseAll (st : FilterState) (c : JStr) :
    lookupCol (collapseAll st) c =
      (lookupCol st c).map (fun f => { f with collapsed := true }) := by
  unfold lookupCol collapseAll
  simp only
  induction st.columns with
  | nil => rfl
  | cons p t ih =>
    by_cases h : p.1 == c
    · simp [List.find?, h]
    · simpa [List.find?, h] using ih

theorem columnPassDesc_collapsed (f : Option FilterDesc) (val : JStr) :
    columnPassDesc ((f).map (fun f => { f with collapsed := true })) val =
      columnPassDesc f val := by
  cases f <;> rfl

theorem rowMatchesApplied_collapseAll (st : FilterState) (columns : List JStr)
    (row : Row) (ex : Option JStr) :
    rowMatchesApplied (collapseAll st) columns row ex =
      rowMatchesApplied st columns row ex := by
  unfold rowMatchesApplied
  have hg : globalPass (collapseAll st) columns row = globalPass st columns row := rfl
  rw [hg]
  congr 1
  apply list_all_congr
  intro c _
  congr 1
  unfold columnPassOf
  rw [lookupCol_collapseAll, columnPassDesc_collapsed]

/-! ## C10: totality and robustness of the matcher -/

/-- C10: `rowMatchesApplied` is total (it is a Lean function, defined for
every state, row and exclusion) and degrades gracefully on applied states
not produced by `ensureStateSchemas`: a column whose descriptor is missing
passes its per-column check, as does one whose type tag is neither
`"text"` nor `"multi"`, and a `"multi"` descriptor holding a non-array
value is an empty selection; consequently, over a column list all of whose
descriptors are missing or malformed in one of these ways, the whole
matcher reduces to the global-search check alone. -/
theorem c10_matcher_total_and_robust (st : FilterState) (row : Row) (c : JStr) :
    (lookupCol st c = none → columnPassOf st row c = true) ∧
    (∀ f, lookupCol st c = some f → f.type ≠ chars "text" → f.type ≠ chars "multi" →
      columnPassOf st row c = true) ∧
    (∀ f s, lookupCol st c = some f → f.type = chars "multi" → f.value = JSVal.str s →
      columnPassOf st row c = true) ∧
    (∀ columns : List JStr,
      (∀ d ∈ columns, lookupCol st d = none ∨
        (∃ f, lookupCol st d = some f ∧ f.type ≠ chars "text" ∧ f.type ≠ chars "multi") ∨
        (∃ f s, lookupCol st d = some f ∧ f.type = chars "multi" ∧ f.value = JSVal.str s)) →
      rowMatchesApplied st columns row none = globalPass st columns row) := by
  have pass1 : lookupCol st c = none → columnPassOf st row c = true := by
    intro h; unfold columnPassOf; rw [h]; rfl
  have pass2 : ∀ f, lookupCol st c = some f → f.type ≠ chars "text" →
      f.type ≠ chars "multi" → columnPassOf st row c = true := by
    intro f h ht hm
    unfold columnPassOf
    rw [h]
    rw [columnPassDesc_some]
    rw [if_neg (by simpa using ht), if_neg (by simpa using hm)]
  have pass3 : ∀ f s, lookupCol st c = some f → f.type = chars "multi" →
      f.value = JSVal.str s → columnPassOf st row c = true := by
    intro f s h ht hv
    unfold columnPassOf
    rw [h]
    rw [columnPassDesc_some]
    by_cases htxt : f.type == chars "text"
    · rw [if_pos htxt]
      have : f.type = chars "text" := by simpa using htxt
      rw [ht] at this
      simp [chars] at this
    · rw [if_neg htxt, if_pos (by simpa using ht), hv]
      rfl
  refine ⟨pass1, pass2, pass3, ?_⟩
  intro columns hcols
  unfold rowMatchesApplied
  have : (columns.all fun d => skipCol none d || columnPassOf st row d) = true := by
    rw [List.all_eq_true]
    intro d hd
    rcases hcols d hd with h | ⟨f, h, ht, hm⟩ | ⟨f, s, h, ht, hv⟩
    · have p1 : lookupCol st d = none → columnPassOf st row d = true := by
        intro h; unfold columnPassOf; rw [h]; rfl
      simp [p1 h]
    · have : columnPassOf st row d = true := by
        unfold columnPassOf
        rw [h, columnPassDesc_some]
        rw [if_neg (by simpa using ht), if_neg (by simpa using hm)]
      simp [this]
    · have : columnPassOf st row d = true := by
        unfold columnPassOf
        rw [h, columnPassDesc_some]
        by_cases htxt : f.type == chars "text"
        · have : f.type = chars "text" := by simpa using htxt
          rw [ht] at this
          simp [chars] at this
        · rw [if_neg htxt, if_pos (by simpa using ht), hv]
          rfl
      simp [this]
  rw [this, Bool.and_true]

/-- Concrete instantiation of the C10 robustness theorem: on `w10st`, all
three malformed descriptors impose no constraint and the matcher agrees
with the bare global check. -/
theorem c10_matcher_total_and_robust_witness :
    columnPassOf w10st w10row (chars "A") = true ∧
    columnPassOf w10st w10row (chars "B") = true ∧
    columnPassOf w10st w10row (chars "C") = true ∧
    rowMatchesApplied w10st [chars "A", chars "B", chars "C"] w10row none =
      globalPass w10st [chars "A", chars "B", chars "C"] w10row := by
  refine ⟨(c10_matcher_total_and_robust w10st w10row (chars "A")).1 (by decide),
    (c10_matcher_total_and_robust w10st w10row (chars "B")).2.1
      ⟨chars "bogus", .str (chars "zz"), true⟩ (by decide) (by decide) (by decide),
    (c10_matcher_total_and_robust w10st w10row (chars "C")).2.2.1
      ⟨chars "multi", .str (chars "zz"), true⟩ (chars "zz") (by decide) (by decide) (by decide),
    (c10_matcher_total_and_robust w10st w10row (chars "A")).2.2.2
      [chars "A", chars "B", chars "C"] ?_⟩
  intro d hd
  simp only [List.mem_cons, List.not_mem_nil, or_false] at hd
  rcases hd with rfl | rfl | rfl
  · exact Or.inl (by decide)
  · exact Or.inr (Or.inl ⟨⟨chars "bogus", .str (chars "zz"), true⟩,
      by decide, by decide, by decide⟩)
  · exact Or.inr (Or.inr ⟨⟨chars "multi", .str (chars "zz"), true⟩, chars "zz",
      by decide, by decide, rfl⟩)

/-! ## C3: Row Matcher semantics -/

theorem normalizeValue_idem (v : Option JStr) :
    normalizeValue (some (normalizeValue v)) = normalizeValue v := by
  cases v with
  | none => rfl
  | some s => exact trimCL_idem s

theorem globalPass_iff (st : FilterState) (columns : List JStr) (row : Row) :
    globalPass st columns row = true ↔ specGlobalOk st columns row := by
  unfold globalPass specGlobalOk
  by_cases h : (toLowerJS (some st.global)).isEmpty
  · have hnil : normalizeValue (some st.global) = [] := by
      have := List.isEmpty_iff.mp h
      exact (lowerCL_eq_nil _).mp this
    simp [h, hnil]
  · have hne : normalizeValue (some st.global) ≠ [] := by
      intro hc
      exact h (by simp [toLowerJS, hc, lowerCL])
    rw [if_neg h, List.any_eq_true]
    constructor
    · rintro ⟨c, hc, hp⟩ _
      exact ⟨c, hc, hp⟩
    · intro hs
      rcases hs hne with ⟨c, hc, hp⟩
      exact ⟨c, hc, hp⟩

theorem chars_text_ne_multi : chars "text" ≠ chars "multi" := by decide

theorem columnPass_iff (st : FilterState) (row : Row) (c : JStr)
    (hwt : ∀ f, lookupCol st c = some f →
      (f.type = chars "text" → ∃ q, f.value = JSVal.str q) ∧
      (f.type = chars "multi" → ∃ l, f.value = JSVal.arr l)) :
    columnPassOf st row c = true ↔ specColumnOk st row c := by
  unfold columnPassOf specColumnOk
  cases hl : lookupCol st c with
  | none => simp [columnPassDesc]
  | some f =>
    rw [columnPassDesc_some]
    by_cases htx : f.type = chars "text"
    · obtain ⟨q, hq⟩ := (hwt f hl).1 htx
      rw [if_pos (by simpa using htx), hq]
      have hjs : jsValToString (JSVal.str q) = q := rfl
      rw [hjs]
      by_cases hqe : (normalizeValue (some q)).isEmpty
      · rw [if_pos hqe]
        have hqnil : normalizeValue (some q) = [] := List.isEmpty_iff.mp hqe
        constructor
        · intro _
          constructor
          · intro f' q' hf' _ hv' hne'
            obtain rfl := Option.some.inj hf'
            rw [hq] at hv'
            obtain rfl := JSVal.str.inj hv'
            exact absurd hqnil hne'
          · intro f' sel hf' htm' _ _
            obtain rfl := Option.some.inj hf'
            exact absurd (htx ▸ htm') chars_text_ne_multi
        · intro _; rfl
      · rw [if_neg hqe]
        have hqne : normalizeValue (some q) ≠ [] := by
          intro hc'; exact hqe (List.isEmpty_iff.mpr hc')
        rw [normalizeValue_idem (rowGet row c), normalizeValue_idem (some q)]
        constructor
        · intro hcont
          constructor
          · intro f' q' hf' _ hv' _
            obtain rfl := Option.some.inj hf'
            rw [hq] at hv'
            obtain rfl := JSVal.str.inj hv'
            exact hcont
          · intro f' sel hf' htm' _ _
            obtain rfl := Option.some.inj hf'
            exact absurd (htx ▸ htm') chars_text_ne_multi
        · intro ⟨h1, _⟩
          exact h1 f q rfl htx hq hqne
    · rw [if_neg (by simpa using htx)]
      by_cases htm : f.type = chars "multi"
      · obtain ⟨sel, hsel⟩ := (hwt f hl).2 htm
        rw [if_pos (by simpa using htm), hsel]
        by_cases hse : (sel : List JStr).isEmpty
        · simp only [hse, if_pos]
          have hsnil : sel = [] := List.isEmpty_iff.mp hse
          constructor
          · intro _
            constructor
            · intro f' q' hf' htx' _ _
              obtain rfl := Option.some.inj hf'
              exact absurd (htx'.symm.trans htm) chars_text_ne_multi
            · intro f' sel' hf' _ hv' hne'
              obtain rfl := Option.some.inj hf'
              rw [hsel] at hv'
              obtain rfl := JSVal.arr.inj hv'
              exact absurd hsnil hne'
          · intro _
            simp [hse]
        · simp only [hse, Bool.false_eq_true, if_false]
          have hsne : sel ≠ [] := by
            intro hc'; exact hse (List.isEmpty_iff.mpr hc')
          have hcm : sel.contains (normalizeValue (rowGet row c)) = true ↔
              normalizeValue (rowGet row c) ∈ sel := by
            rw [List.contains_eq_any_beq, List.any_eq_true]
            constructor
            · rintro ⟨x, hx, hbeq⟩
              obtain rfl := beq_iff_eq.mp hbeq
              exact hx
            · intro hx
              exact ⟨_, hx, beq_iff_eq.mpr rfl⟩
          rw [hcm]
          constructor
          · intro hmem
            constructor
            · intro f' q' hf' htx' _ _
              obtain rfl := Option.some.inj hf'
              exact absurd (htx'.symm.trans htm) chars_text_ne_multi
            · intro f' sel' hf' _ hv' _
              obtain rfl := Option.some.inj hf'
              rw [hsel] at hv'
              obtain rfl := JSVal.arr.inj hv'
              exact hmem
          · intro ⟨_, h2⟩
            exact h2 f sel rfl htm hsel hsne
      · rw [if_neg (by simpa using htm)]
        constructor
        · intro _
          constructor
          · intro f' q' hf' htx' _ _
            obtain rfl := Option.some.inj hf'
            exact absurd htx' htx
          · intro f' sel' hf' htm' _ _
            obtain rfl := Option.some.inj hf'
            exact absurd htm' htm
        · intro _; rfl

/-- C3: against applied state, `rowMatchesApplied(row, null)` returns true
iff the spec's Row Matcher predicate holds — the global clause (OR across
columns) when the global string is non-empty, and for every column the
text/multi clause (no constraint for empty query / empty selection,
case-insensitive substring containment for text, exact membership for
multi) — provided every present descriptor is well-typed (a text tag
holds a string, a multi tag holds an array). -/
theorem c3_row_matcher_semantics (st : FilterState) (columns : List JStr) (row : Row)
    (hwt : ∀ c ∈ columns, ∀ f, lookupCol st c = some f →
      (f.type = chars "text" → ∃ q, f.value = JSVal.str q) ∧
      (f.type = chars "multi" → ∃ l, f.value = JSVal.arr l)) :
    rowMatchesApplied st columns row none = true ↔ specRowMatches st columns row := by
  unfold rowMatchesApplied specRowMatches
  rw [Bool.and_eq_true, List.all_eq_true]
  constructor
  · rintro ⟨hg, hall⟩
    refine ⟨(globalPass_iff st columns row).mp hg, ?_⟩
    intro c hc
    have := hall c hc
    simp only [skipCol, Bool.false_or] at this
    exact (columnPass_iff st row c (hwt c hc)).mp this
  · rintro ⟨hg, hcols⟩
    refine ⟨(globalPass_iff st columns row).mpr hg, ?_⟩
    intro c hc
    simp only [skipCol, Bool.false_or]
    exact (columnPass_iff st row c (hwt c hc)).mpr (hcols c hc)

/-- Concrete instantiation of C3: on a two-column state (multi `A` with
selection `x`,`y`; text `B` with query `foo`) and a matching row, both
sides of the equivalence hold. -/
theorem c3_row_matcher_semantics_witness :
    rowMatchesApplied
      ⟨chars "go", [(chars "A", ⟨chars "multi", .arr [chars "x", chars "y"], true⟩),
                    (chars "B", ⟨chars "text", .str (chars "foo"), false⟩)]⟩
      [chars "A", chars "B"]
      [(chars "A", chars "x"), (chars "B", chars " GOod FOOD ")] none = true ↔
    specRowMatches
      ⟨chars "go", [(chars "A", ⟨chars "multi", .arr [chars "x", chars "y"], true⟩),
                    (chars "B", ⟨chars "text", .str (chars "foo"), false⟩)]⟩
      [chars "A", chars "B"]
      [(chars "A", chars "x"), (chars "B", chars " GOod FOOD ")] := by
  apply c3_row_matcher_semantics
  intro c hc f hf
  simp only [List.mem_cons, List.not_mem_nil, or_false] at hc
  rcases hc with rfl | rfl
  · have hval : f = ⟨chars "multi", .arr [chars "x", chars "y"], true⟩ := by
      have heq : lookupCol
          ⟨chars "go", [(chars "A", ⟨chars "multi", .arr [chars "x", chars "y"], true⟩),
                        (chars "B", ⟨chars "text", .str (chars "foo"), false⟩)]⟩
          (chars "A") = some ⟨chars "multi", .arr [chars "x", chars "y"], true⟩ := by decide
      rw [heq] at hf
      exact (Option.some.inj hf).symm
    subst hval
    exact ⟨fun ht => absurd ht (by decide), fun hm => ⟨[chars "x", chars "y"], rfl⟩⟩
  · have hval : f = ⟨chars "text", .str (chars "foo"), false⟩ := by
      have heq : lookupCol
          ⟨chars "go", [(chars "A", ⟨chars "multi", .arr [chars "x", chars "y"], true⟩),
                        (chars "B", ⟨chars "text", .str (chars "foo"), false⟩)]⟩
          (chars "B") = some ⟨chars "text", .str (chars "foo"), false⟩ := by decide
      rw [heq] at hf
      exact (Option.some.inj hf).symm
    subst hval
    exact ⟨fun ht => ⟨chars "foo", rfl⟩, fun hm => absurd hm (by decide)⟩

/-! ## C2: facet exclusion -/

theorem globalPass_congr {st st' : FilterState} (columns : List JStr) (row : Row)
    (hg : st.global = st'.global) :
    globalPass st columns row = globalPass st' columns row := by
  unfold globalPass
  rw [hg]

/-- The matcher with column `c` excluded never reads `c`'s descriptor:
two states with the same global string that agree on every other
column's descriptor give the same excluded-matcher verdict. -/
theorem rowMatches_exclude_congr {st st' : FilterState} {columns : List JStr}
    {c : JStr} (row : Row) (hc : c ≠ [])
    (hg : st.global = st'.global)
    (hagree : ∀ d ∈ columns, d ≠ c → lookupCol st d = lookupCol st' d) :
    rowMatchesApplied st columns row (some c) =
      rowMatchesApplied st' columns row (some c) := by
  unfold rowMatchesApplied
  rw [globalPass_congr columns row hg]
  congr 1
  apply list_all_congr
  intro d hd
  by_cases hdc : d = c
  · subst hdc
    have : skipCol (some d) d = true := by
      simp [skipCol, List.isEmpty_iff, hc]
    rw [this]
    rfl
  · congr 1
    exact columnPassOf_congr row (hagree d hd hdc)

theorem facetScan_congr {st st' : FilterState} {columns : List JStr} {c : JStr}
    (rows : List Row)
    (hrow : ∀ r ∈ rows, rowMatchesApplied st columns r (some c) =
      rowMatchesApplied st' columns r (some c)) :
    ∀ m, facetScan st columns c rows m = facetScan st' columns c rows m := by
  induction rows with
  | nil => intro m; rfl
  | cons r rs ih =>
    intro m
    have hr := hrow r (by simp)
    have ihr := ih (fun x hx => hrow x (by simp [hx]))
    unfold facetScan
    rw [← hr]
    by_cases hm : rowMatchesApplied st columns r (some c) = true
    · rw [if_pos hm, if_pos hm]
      by_cases hv : (normalizeValue (rowGet r c)).isEmpty
      · rw [if_pos hv, if_pos hv, ihr]
      · rw [if_neg hv, if_neg hv, ihr]
    · rw [if_neg hm, if_neg hm, ihr]

theorem mapSet_mem {m : CountMap} {k : JStr} {n : Nat} {p : JStr × Nat}
    (hp : p ∈ mapSet m k n) : p ∈ m ∨ p.1 = k := by
  unfold mapSet at hp
  by_cases h : m.any (fun p => p.1 == k)
  · rw [if_pos h] at hp
    rcases List.mem_map.mp hp with ⟨q, hq, hpq⟩
    by_cases hqk : q.1 == k
    · rw [if_pos hqk] at hpq
      right
      rw [← hpq]
    · rw [if_neg hqk] at hpq
      left
      rw [← hpq]; exact hq
  · rw [if_neg h] at hp
    rcases List.mem_append.mp hp with h1 | h1
    · exact Or.inl h1
    · right
      rw [List.mem_singleton.mp h1]

theorem facetScan_keys_nonempty (st : FilterState) (columns : List JStr)
    (c : JStr) (rows : List Row) :
    ∀ m, (∀ p ∈ m, p.1 ≠ ([] : JStr)) →
      ∀ p ∈ facetScan st columns c rows m, p.1 ≠ ([] : JStr) := by
  induction rows with
  | nil => intro m hm; exact hm
  | cons r rs ih =>
    intro m hm p
    unfold facetScan
    by_cases hmt : rowMatchesApplied st columns r (some c) = true
    · rw [if_pos hmt]
      by_cases hv : (normalizeValue (rowGet r c)).isEmpty
      · rw [if_pos hv]
        exact ih m hm p
      · rw [if_neg hv]
        apply ih
        intro q hq
        rcases mapSet_mem hq with h1 | h1
        · exact hm q h1
        · rw [h1]
          intro hnil
          exact hv (List.isEmpty_iff.mpr hnil)
    · rw [if_neg hmt]
      exact ih m hm p

/-- C2: for a non-empty column name `c` (every loaded column name is
non-empty, since load keeps only truthy header fields), two applied
states that differ only in `c`'s own descriptor (same global string, same
descriptors everywhere else) produce identical `facetCounts(c)`; a row
admitted to the scan still passes the global search and every other
column's applied filter; and no empty normalized value is ever counted. -/
theorem c2_facet_exclusion (st st' : FilterState) (columns : List JStr)
    (rawRows : List Row) (c : JStr) (hc : c ≠ [])
    (hg : st.global = st'.global)
    (hagree : ∀ d ∈ columns, d ≠ c → lookupCol st d = lookupCol st' d) :
    getFacetCountsForColumn st columns rawRows c =
      getFacetCountsForColumn st' columns rawRows c ∧
    (∀ r, rowMatchesApplied st columns r (some c) = true →
      globalPass st columns r = true ∧
      ∀ d ∈ columns, d ≠ c → columnPassOf st r d = true) ∧
    (∀ p ∈ getFacetCountsForColumn st columns rawRows c, p.1 ≠ ([] : JStr)) := by
  refine ⟨?_, ?_, ?_⟩
  · unfold getFacetCountsForColumn
    exact facetScan_congr rawRows
      (fun r _ => rowMatches_exclude_congr r hc hg hagree) []
  · intro r hr
    unfold rowMatchesApplied at hr
    rw [Bool.and_eq_true, List.all_eq_true] at hr
    refine ⟨hr.1, ?_⟩
    intro d hd hdc
    have := hr.2 d hd
    have hskip : skipCol (some c) d = false := by
      simp [skipCol, hdc]
    rw [hskip] at this
    simpa using this
  · exact facetScan_keys_nonempty st columns c rawRows [] (by simp)

/-- Concrete instantiation of C2: with `Model` selections `{A}` versus
`{}` (everything else identical), the facet counts for `Model` agree and
equal `A ↦ 2, B ↦ 1`. -/
theorem c2_facet_exclusion_witness :
    getFacetCountsForColumn
      ⟨chars "", [(chars "Model", ⟨chars "multi", .arr [chars "A"], true⟩)]⟩
      [chars "Model", chars "N"]
      [[(chars "Model", chars "A"), (chars "N", chars "1")],
       [(chars "Model", chars "A"), (chars "N", chars "2")],
       [(chars "Model", chars "B"), (chars "N", chars "")]]
      (chars "Model") =
    getFacetCountsForColumn
      ⟨chars "", [(chars "Model", ⟨chars "multi", .arr [], true⟩)]⟩
      [chars "Model", chars "N"]
      [[(chars "Model", chars "A"), (chars "N", chars "1")],
       [(chars "Model", chars "A"), (chars "N", chars "2")],
       [(chars "Model", chars "B"), (chars "N", chars "")]]
      (chars "Model") ∧
    getFacetCountsForColumn
      ⟨chars "", [(chars "Model", ⟨chars "multi", .arr [chars "A"], true⟩)]⟩
      [chars "Model", chars "N"]
      [[(chars "Model", chars "A"), (chars "N", chars "1")],
       [(chars "Model", chars "A"), (chars "N", chars "2")],
       [(chars "Model", chars "B"), (chars "N", chars "")]]
      (chars "Model") = [(chars "A", 2), (chars "B", 1)] := by
  constructor
  · exact (c2_facet_exclusion _ _ _ _ _ (by decide) rfl (by decide)).1
  · decide

/-! ## C4: column classification -/

theorem mapSet_keys (m : CountMap) (k : JStr) (n : Nat) :
    (mapSet m k n).map Prod.fst =
      if k ∈ m.map Prod.fst then m.map Prod.fst else m.map Prod.fst ++ [k] := by
  unfold mapSet
  by_cases h : m.any (fun p => p.1 == k)
  · rw [if_pos h]
    have hkmem : k ∈ m.map Prod.fst := by
      rcases List.any_eq_true.mp h with ⟨p, hp, hbeq⟩
      rcases List.mem_map.mp (List.mem_map_of_mem Prod.fst hp) with _
      have : p.1 = k := beq_iff_eq.mp hbeq
      exact this ▸ List.mem_map_of_mem Prod.fst hp
    rw [if_pos hkmem, List.map_map]
    apply List.map_congr_left
    intro p hp
    by_cases hpk : p.1 == k
    · simp only [Function.comp_apply, if_pos hpk]
      exact (beq_iff_eq.mp hpk).symm
    · simp only [Function.comp_apply, if_neg hpk]
  · rw [if_neg h]
    have hkmem : k ∉ m.map Prod.fst := by
      intro hmem
      rcases List.mem_map.mp hmem with ⟨p, hp, hpk⟩
      exact h (List.any_eq_true.mpr ⟨p, hp, beq_iff_eq.mpr hpk⟩)
    rw [if_neg hkmem, List.map_append]
    rfl

theorem mapSet_keys_mem (m : CountMap) (k v : JStr) (n : Nat) :
    v ∈ (mapSet m k n).map Prod.fst ↔ v ∈ m.map Prod.fst ∨ v = k := by
  rw [mapSet_keys]
  by_cases h : k ∈ m.map Prod.fst
  · rw [if_pos h]
    constructor
    · exact Or.inl
    · rintro (hv | rfl)
      · exact hv
      · exact h
  · rw [if_neg h]
    simp [List.mem_append]

theorem mapSet_keys_nodup {m : CountMap} (k : JStr) (n : Nat)
    (h : (m.map Prod.fst).Nodup) : ((mapSet m k n).map Prod.fst).Nodup := by
  rw [mapSet_keys]
  by_cases hk : k ∈ m.map Prod.fst
  · rwa [if_pos hk]
  · rw [if_neg hk]
    refine List.Nodup.append h (List.nodup_singleton k) ?_
    intro a ha hb
    rw [List.mem_singleton] at hb
    subst hb
    exact hk ha

/-- Values inserted by one pass of the facet scan over `rows`. -/
theorem facetScan_keys_mem (st : FilterState) (columns : List JStr) (col : JStr) :
    ∀ (rows : List Row) (m : CountMap) (k : JStr),
      k ∈ (facetScan st columns col rows m).map Prod.fst ↔
        k ∈ m.map Prod.fst ∨
        k ∈ ((rows.filter (fun r => rowMatchesApplied st columns r (some col))).map
          (fun r => normalizeValue (rowGet r col))).filter (fun v => !v.isEmpty) := by
  intro rows
  induction rows with
  | nil => intro m k; simp [facetScan]
  | cons r rs ih =>
    intro m k
    unfold facetScan
    by_cases hm : rowMatchesApplied st columns r (some col) = true
    · rw [if_pos hm]
      by_cases hv : (normalizeValue (rowGet r col)).isEmpty
      · rw [if_pos hv, ih]
        simp [List.filter_cons, hm, hv]
      · rw [if_neg hv, ih, mapSet_keys_mem]
        have hfc : List.filter (fun v => !List.isEmpty v)
            (List.map (fun r => normalizeValue (rowGet r col))
              (List.filter (fun r => rowMatchesApplied st columns r (some col)) (r :: rs))) =
            normalizeValue (rowGet r col) ::
            List.filter (fun v => !List.isEmpty v)
              (List.map (fun r => normalizeValue (rowGet r col))
                (List.filter (fun r => rowMatchesApplied st columns r (some col)) rs)) := by
          rw [List.filter_cons, if_pos (by simpa using hm), List.map_cons,
            List.filter_cons, if_pos (by simpa using hv)]
        rw [hfc]
        constructor
        · rintro ((h1 | rfl) | h1)
          · exact Or.inl h1
          · exact Or.inr (List.mem_cons_self _ _)
          · exact Or.inr (List.mem_cons_of_mem _ h1)
        · rintro (h1 | h1)
          · exact Or.inl (Or.inl h1)
          · rcases List.mem_cons.mp h1 with rfl | h2
            · exact Or.inl (Or.inr rfl)
            · exact Or.inr h2
    · rw [if_neg hm, ih]
      simp [List.filter_cons, hm]

theorem facetScan_keys_nodup (st : FilterState) (columns : List JStr) (col : JStr) :
    ∀ (rows : List Row) (m : CountMap), (m.map Prod.fst).Nodup →
      ((facetScan st columns col rows m).map Prod.fst).Nodup := by
  intro rows
  induction rows with
  | nil => intro m hm; exact hm
  | cons r rs ih =>
    intro m hm
    unfold facetScan
    by_cases hmt : rowMatchesApplied st columns r (some col) = true
    · rw [if_pos hmt]
      by_cases hv : (normalizeValue (rowGet r col)).isEmpty
      · rw [if_pos hv]; exact ih m hm
      · rw [if_neg hv]; exact ih _ (mapSet_keys_nodup _ _ hm)
    · rw [if_neg hmt]; exact ih m hm

/-- The size of the facet count map is the number of distinct non-empty
normalized values among the rows passing all other filters. -/
theorem facetCounts_length (st : FilterState) (columns : List JStr)
    (rows : List Row) (col : JStr) :
    (getFacetCountsForColumn st columns rows col).length =
      (distinctFacetValues st columns rows col).length := by
  unfold getFacetCountsForColumn distinctFacetValues
  set K := (facetScan st columns col rows []).map Prod.fst with hK
  set V := ((rows.filter (fun r => rowMatchesApplied st columns r (some col))).map
    (fun r => normalizeValue (rowGet r col))).filter (fun v => !v.isEmpty) with hV
  have hlen : (facetScan st columns col rows []).length = K.length := by
    rw [hK, List.length_map]
  rw [hlen]
  have hnd : K.Nodup := facetScan_keys_nodup st columns col rows [] (by simp)
  have hmem : ∀ k, k ∈ K ↔ k ∈ V := by
    intro k
    rw [hK, facetScan_keys_mem]
    simp only [List.map_nil, List.not_mem_nil, false_or]
  have h1 : K.length = K.toFinset.card := by
    rw [List.toFinset_card_of_nodup hnd]
  have h2 : K.toFinset = V.toFinset := by
    ext x
    simp only [List.mem_toFinset]
    exact hmem x
  rw [h1, h2, List.card_toFinset]

/-- C4: a column in the forced set (case-insensitively) is classified
`multi` unconditionally; otherwise it is `multi` exactly when its number
of distinct non-empty normalized values under the facet-conditioned
cardinality source lies in `[1, 30]`, and `text` otherwise.
(Classification is a pure function of its inputs, so re-running it on
identical input trivially yields the identical result.) -/
theorem c4_column_classification (st : FilterState) (columns : List JStr)
    (rows : List Row) (col : JStr) :
    (classifyColumnType col (getFacetCountsForColumn st columns rows col) = chars "multi" ↔
      isForcedMulti col = true ∨
        (1 ≤ (distinctFacetValues st columns rows col).length ∧
          (distinctFacetValues st columns rows col).length ≤ 30)) ∧
    (classifyColumnType col (getFacetCountsForColumn st columns rows col) = chars "text" ↔
      ¬(isForcedMulti col = true ∨
        (1 ≤ (distinctFacetValues st columns rows col).length ∧
          (distinctFacetValues st columns rows col).length ≤ 30))) := by
  have hcard : isLowCardinalityByCounts (getFacetCountsForColumn st columns rows col) = true ↔
      (1 ≤ (distinctFacetValues st columns rows col).length ∧
        (distinctFacetValues st columns rows col).length ≤ 30) := by
    unfold isLowCardinalityByCounts
    rw [facetCounts_length]
    rw [Bool.and_eq_true, decide_eq_true_iff, decide_eq_true_iff]
    omega
  have hne : chars "multi" ≠ chars "text" := by decide
  unfold classifyColumnType
  by_cases h : (isForcedMulti col || isLowCardinalityByCounts
      (getFacetCountsForColumn st columns rows col)) = true
  · rw [if_pos h]
    rw [Bool.or_eq_true, hcard] at h
    constructor
    · exact ⟨fun _ => h, fun _ => rfl⟩
    · exact ⟨fun he => absurd he hne, fun hn => absurd h hn⟩
  · rw [if_neg h]
    rw [Bool.or_eq_true, hcard] at h
    constructor
    · exact ⟨fun he => absurd he (Ne.symm hne), fun hp => absurd hp h⟩
    · exact ⟨fun _ => h, fun _ => rfl⟩

/-! ## C1: the Apply gate -/

/-- C1: the matched/sorted row set and every column's facet counts are
functions of applied state (plus raw rows, columns and sort state) only —
proved for every state, hence for every reachable one.  Draft-only edits
(a column's draft value, the draft global search) change neither
`matches(row, none)` nor the filtered row set nor any facet counts; and
immediately after `apply()` commits, the filtered row set and the facet
counts are exactly the ones computed from the state that was the draft at
commit time (the collapsed flags forced by the commit are irrelevant to
matching). -/
theorem c1_apply_gate (s : AppState) (c g : JStr) (v : JSVal) (row : Row) (col : JStr) :
    (computeFiltered (editDraftValue s c v) = computeFiltered s) ∧
    (computeFiltered (editDraftGlobal s g) = computeFiltered s) ∧
    (rowMatchesApplied (editDraftValue s c v).applied (editDraftValue s c v).columns
      row none = rowMatchesApplied s.applied s.columns row none) ∧
    (rowMatchesApplied (editDraftGlobal s g).applied (editDraftGlobal s g).columns
      row none = rowMatchesApplied s.applied s.columns row none) ∧
    (stateFacetCounts (editDraftValue s c v) col = stateFacetCounts s col) ∧
    (stateFacetCounts (editDraftGlobal s g) col = stateFacetCounts s col) ∧
    (rowMatchesApplied (applyCommit s).applied (applyCommit s).columns row none =
      rowMatchesApplied s.draft s.columns row none) ∧
    (computeFiltered (applyCommit s) =
      sortRows s.sort (s.rawRows.filter
        (fun r => rowMatchesApplied s.draft s.columns r none))) ∧
    (stateFacetCounts (applyCommit s) col =
      getFacetCountsForColumn s.draft s.columns s.rawRows col) := by
  refine ⟨rfl, rfl, rfl, rfl, rfl, rfl, ?_, ?_, ?_⟩
  · exact rowMatchesApplied_collapseAll s.draft s.columns row none
  · unfold computeFiltered applyCommit
    simp only
    congr 1
    apply List.filter_congr
    intro r _
    exact rowMatchesApplied_collapseAll s.draft s.columns r none
  · unfold stateFacetCounts applyCommit getFacetCountsForColumn
    simp only
    exact facetScan_congr s.rawRows
      (fun r _ => rowMatchesApplied_collapseAll s.draft s.columns r (some col)) []

/-! ## C5: isDirty -/

/-- Counterexample to C5 as stated: two states that agree on the global
string and whose single multi descriptor selects the same *set* of values
(the two value arrays are permutations of each other), differing only in
the order of that array, are nevertheless reported dirty — `isDirty`
compares the value arrays as sequences. -/
theorem c5_isDirty_counterexample :
    isDirty ⟨chars "", [(chars "c", ⟨chars "multi", .arr [chars "a", chars "b"], true⟩)]⟩
            ⟨chars "", [(chars "c", ⟨chars "multi", .arr [chars "b", chars "a"], true⟩)]⟩
      = true ∧
    List.Perm [chars "a", chars "b"] [chars "b", chars "a"] ∧
    (⟨chars "", [(chars "c", ⟨chars "multi", .arr [chars "a", chars "b"], true⟩)]⟩ :
      FilterState).global =
    (⟨chars "", [(chars "c", ⟨chars "multi", .arr [chars "b", chars "a"], true⟩)]⟩ :
      FilterState).global := by
  refine ⟨by decide, ?_, rfl⟩
  decide

theorem stripForDirty_setCollapsed (st : FilterState) (c : JStr) (b : Bool) :
    stripForDirty (setCollapsed st c b) = stripForDirty st := by
  unfold stripForDirty setCollapsed
  simp only [List.map_map]
  refine congrArg _ ?_
  apply List.map_congr_left
  intro p _
  by_cases h : p.1 = c
  · simp [h]
  · simp [h]

/-- C5 as amended: `isDirty` is true iff applied and draft differ in the
global string or in the ordered sequence of (column, type, value) triples
— value arrays compared as sequences, order- and multiplicity-sensitive,
not as sets; `collapsed` flags never affect it, and sort changes never
affect it (`isDirty` does not read `sortState`). -/
theorem c5_isDirty_amended (a d : FilterState) (c : JStr) (b : Bool)
    (s : AppState) (col : JStr) :
    (isDirty a d = true ↔
      ¬(a.global = d.global ∧
        a.columns.map (fun p => (p.1, p.2.type, p.2.value)) =
          d.columns.map (fun p => (p.1, p.2.type, p.2.value)))) ∧
    (isDirty a (setCollapsed d c b) = isDirty a d) ∧
    (isDirty (setCollapsed a c b) d = isDirty a d) ∧
    (isDirty (changeSort s col).applied (changeSort s col).draft =
      isDirty s.applied s.draft) := by
  refine ⟨?_, ?_, ?_, ?_⟩
  · unfold isDirty
    rw [Bool.not_eq_eq_eq_not, Bool.not_true, beq_eq_false_iff_ne]
    unfold stripForDirty
    constructor
    · intro hne hand
      exact hne (by rw [hand.1, hand.2])
    · intro hne heq
      obtain ⟨h1, h2⟩ := Prod.mk.injEq _ _ _ _ ▸ heq
      exact hne ⟨h1, h2⟩
  · unfold isDirty
    rw [stripForDirty_setCollapsed]
  · unfold isDirty
    rw [stripForDirty_setCollapsed]
  · unfold changeSort
    split <;> rfl

/-! ## C6: descriptor self-healing -/

theorem lookupCol_eq_find? (st : FilterState) (c : JStr) :
    lookupCol st c = (st.columns.find? (fun p => p.1 == c)).map Prod.snd := by
  unfold lookupCol
  cases st.columns.find? (fun p => p.1 == c) <;> rfl

theorem find?_replace_self (t : List (JStr × FilterDesc)) (c : JStr) (d : FilterDesc)
    (h : t.any (fun p => p.1 == c) = true) :
    (t.map (fun p => if p.1 == c then (c, d) else p)).find? (fun p => p.1 == c) =
      some (c, d) := by
  induction t with
  | nil => simp at h
  | cons q r ih =>
    rw [List.map_cons]
    by_cases hq : q.1 == c
    · rw [if_pos hq]
      exact List.find?_cons_of_pos _ (by simp)
    · rw [if_neg hq, List.find?_cons_of_neg _ (by simpa using hq)]
      apply ih
      rcases List.any_eq_true.mp h with ⟨p0, hp0, hb0⟩
      rcases List.mem_cons.mp hp0 with rfl | hmem
      · exact absurd hb0 (by simpa using hq)
      · exact List.any_eq_true.mpr ⟨p0, hmem, hb0⟩

theorem find?_append_self (t : List (JStr × FilterDesc)) (c : JStr) (d : FilterDesc) :
    (t ++ [(c, d)]).find? (fun p => p.1 == c) =
      ((t.find? (fun p => p.1 == c)).or (some (c, d))) := by
  rw [List.find?_append]
  congr 1
  exact List.find?_cons_of_pos _ (by simp)

theorem find?_replace_other (t : List (JStr × FilterDesc)) (c d' : JStr)
    (d : FilterDesc) (hne : d' ≠ c) :
    (t.map (fun p => if p.1 == c then (c, d) else p)).find? (fun p => p.1 == d') =
      t.find? (fun p => p.1 == d') := by
  induction t with
  | nil => rfl
  | cons q r ih =>
    rw [List.map_cons]
    by_cases hq : (q.1 == c) = true
    · rw [if_pos hq]
      have h1 : (c == d') = false := beq_eq_false_iff_ne.mpr (Ne.symm hne)
      have h2 : (q.1 == d') = false := by
        rw [beq_iff_eq.mp hq]; exact h1
      simp only [List.find?_cons, h1, h2, ih]
    · rw [if_neg hq]
      cases hqx : (q.1 == d') with
      | true => simp only [List.find?_cons, hqx]
      | false =>
        simp only [List.find?_cons, hqx]
        exact ih

theorem lookupCol_setCol_self (st : FilterState) (c : JStr) (d : FilterDesc) :
    lookupCol (setCol st c d) c = some d := by
  rw [lookupCol_eq_find?]
  unfold setCol
  by_cases h : st.columns.any (fun p => p.1 == c)
  · rw [if_pos h]
    simp only
    rw [find?_replace_self st.columns c d h]
    rfl
  · rw [if_neg h]
    simp only
    rw [find?_append_self]
    have : st.columns.find? (fun p => p.1 == c) = none := by
      rw [List.find?_eq_none]
      intro p hp
      intro hb
      exact h (List.any_eq_true.mpr ⟨p, hp, hb⟩)
    rw [this]
    rfl

theorem lookupCol_setCol_other (st : FilterState) (c d' : JStr) (d : FilterDesc)
    (hne : d' ≠ c) : lookupCol (setCol st c d) d' = lookupCol st d' := by
  rw [lookupCol_eq_find?, lookupCol_eq_find?]
  unfold setCol
  by_cases h : st.columns.any (fun p => p.1 == c)
  · rw [if_pos h]
    simp only
    rw [find?_replace_other st.columns c d' d hne]
  · rw [if_neg h]
    simp only
    rw [List.find?_append]
    have : ([(c, d)].find? (fun p => p.1 == d')) = none := by
      rw [List.find?_eq_none]
      intro p hp hb
      rw [List.mem_singleton.mp hp] at hb
      exact hne (beq_iff_eq.mp hb).symm
    rw [this, Option.or_none]

theorem multi_ne_text : chars "multi" ≠ chars "text" := by decide

theorem text_ne_multi : chars "text" ≠ chars "multi" := by decide

/-- The repaired descriptor is well-shaped whatever the input was. -/
theorem repairDesc_shapeOk (col : JStr) (f : FilterDesc) :
    shapeOk (repairDesc col f) := by
  obtain ⟨t, v, cl⟩ := f
  unfold repairDesc shapeOk
  by_cases hf : isForcedMulti col = true <;>
    by_cases hm : t = chars "multi" <;>
    by_cases ht : t = chars "text" <;>
    cases v <;>
    simp_all [JSVal.isArr, multi_ne_text, text_ne_multi]

/-- Repair forces the configured columns to the multi type. -/
theorem repairDesc_forced_type (col : JStr) (f : FilterDesc)
    (hf : isForcedMulti col = true) :
    (repairDesc col f).type = chars "multi" := by
  obtain ⟨t, v, cl⟩ := f
  unfold repairDesc
  by_cases hm : t = chars "multi" <;> cases v <;>
    simp_all [JSVal.isArr, multi_ne_text, text_ne_multi]

/-- A forced-multi flip resets the value to the empty selection. -/
theorem repairDesc_forced_flip (col : JStr) (f : FilterDesc)
    (hf : isForcedMulti col = true) (hne : f.type ≠ chars "multi") :
    repairDesc col f = ⟨chars "multi", JSVal.arr [], f.collapsed⟩ := by
  obtain ⟨t, v, cl⟩ := f
  unfold repairDesc
  simp only at hne
  cases v <;> simp_all [JSVal.isArr, multi_ne_text, text_ne_multi]

/-- A multi tag over a non-array value is repaired to the empty array. -/
theorem repairDesc_multi_mismatch (col : JStr) (f : FilterDesc)
    (hm : f.type = chars "multi") (hv : f.value.isArr = false) :
    (repairDesc col f).value = JSVal.arr [] := by
  obtain ⟨t, v, cl⟩ := f
  unfold repairDesc
  simp only at hm hv
  cases v <;> simp_all [JSVal.isArr, multi_ne_text, text_ne_multi]

/-- A text tag over an array value is repaired to the empty string (for a
non-forced column; forced columns flip to multi first). -/
theorem repairDesc_text_mismatch (col : JStr) (f : FilterDesc)
    (hf : isForcedMulti col = false) (ht : f.type = chars "text")
    (hv : f.value.isArr = true) :
    (repairDesc col f).value = JSVal.str [] := by
  obtain ⟨t, v, cl⟩ := f
  unfold repairDesc
  simp only at ht hv
  cases v <;> simp_all [JSVal.isArr, multi_ne_text, text_ne_multi]

theorem wellFormedAt_congr {st st' : FilterState} {col : JStr}
    (h : lookupCol st col = lookupCol st' col) :
    wellFormedAt st col ↔ wellFormedAt st' col := by
  unfold wellFormedAt
  rw [h]

theorem shapeOk_collapsed (f : FilterDesc) (b : Bool) (h : shapeOk f) :
    shapeOk { f with collapsed := b } := h

theorem classifyColumnType_cases (col : JStr) (m : CountMap) :
    classifyColumnType col m = chars "multi" ∨ classifyColumnType col m = chars "text" := by
  unfold classifyColumnType
  by_cases h : (isForcedMulti col || isLowCardinalityByCounts m) = true
  · rw [if_pos h]; exact Or.inl rfl
  · rw [if_neg h]; exact Or.inr rfl

theorem classifyColumnType_forced (col : JStr) (m : CountMap)
    (h : isForcedMulti col = true) : classifyColumnType col m = chars "multi" := by
  unfold classifyColumnType
  rw [if_pos (by simp [h])]

/-- The descriptor `ensureStateSchemas` freshly creates is well-shaped and
respects the forced configuration. -/
theorem freshDesc_wf (col : JStr) (m : CountMap) :
    shapeOk ⟨classifyColumnType col m,
      if classifyColumnType col m == chars "multi" then JSVal.arr [] else JSVal.str [],
      true⟩ ∧
    (isForcedMulti col = true →
      (⟨classifyColumnType col m,
        if classifyColumnType col m == chars "multi" then JSVal.arr [] else JSVal.str [],
        true⟩ : FilterDesc).type = chars "multi") := by
  constructor
  · rcases classifyColumnType_cases col m with h | h
    · constructor
      · intro ht
        simp only at ht
        exact absurd (h.symm.trans ht) multi_ne_text
      · intro _
        refine ⟨[], ?_⟩
        simp only [h]
        rw [if_pos (by simp)]
    · constructor
      · intro _
        refine ⟨[], ?_⟩
        simp only [h]
        rw [if_neg (by simp [text_ne_multi])]
      · intro hm
        simp only at hm
        exact absurd (h.symm.trans hm) text_ne_multi
  · intro hf
    exact classifyColumnType_forced col m hf

/-- One `ensureStateSchemas` iteration initializes / repairs exactly its
column, in both the applied and the draft state. -/
theorem ensureCol_wf_self (rows : List Row) (allCols : List JStr)
    (st : FilterState × FilterState) (c : JStr) :
    wellFormedAt (ensureCol rows allCols st c).1 c ∧
    wellFormedAt (ensureCol rows allCols st c).2 c := by
  unfold ensureCol
  cases hla : lookupCol st.1 c with
  | none =>
    simp only [hla]
    have hwfa := freshDesc_wf c (getFacetCountsForColumn st.1 allCols rows c)
    have hself := lookupCol_setCol_self st.1 c
      ⟨classifyColumnType c (getFacetCountsForColumn st.1 allCols rows c),
        if classifyColumnType c (getFacetCountsForColumn st.1 allCols rows c) ==
          chars "multi" then JSVal.arr [] else JSVal.str [], true⟩
    constructor
    · cases hld : lookupCol st.2 c <;>
        exact ⟨_, hself, hwfa.1, hwfa.2⟩
    · cases hld : lookupCol st.2 c with
      | none =>
        simp only [hld, hself]
        exact ⟨_, lookupCol_setCol_self _ _ _, shapeOk_collapsed _ _ hwfa.1, hwfa.2⟩
      | some fd =>
        simp only [hld]
        exact ⟨_, lookupCol_setCol_self _ _ _, repairDesc_shapeOk c fd,
          fun hf => repairDesc_forced_type c fd hf⟩
  | some fa =>
    simp only [hla]
    have hself := lookupCol_setCol_self st.1 c (repairDesc c fa)
    constructor
    · cases hld : lookupCol st.2 c <;>
        exact ⟨_, hself, repairDesc_shapeOk c fa, fun hf => repairDesc_forced_type c fa hf⟩
    · cases hld : lookupCol st.2 c with
      | none =>
        simp only [hld, hself]
        exact ⟨_, lookupCol_setCol_self _ _ _,
          shapeOk_collapsed _ _ (repairDesc_shapeOk c fa),
          fun hf => repairDesc_forced_type c fa hf⟩
      | some fd =>
        simp only [hld]
        exact ⟨_, lookupCol_setCol_self _ _ _, repairDesc_shapeOk c fd,
          fun hf => repairDesc_forced_type c fd hf⟩

/-- One `ensureStateSchemas` iteration leaves every other column's
descriptors untouched. -/
theorem ensureCol_lookup_other (rows : List Row) (allCols : List JStr)
    (st : FilterState × FilterState) (c col : JStr) (hne : col ≠ c) :
    lookupCol (ensureCol rows allCols st c).1 col = lookupCol st.1 col ∧
    lookupCol (ensureCol rows allCols st c).2 col = lookupCol st.2 col := by
  unfold ensureCol
  cases hla : lookupCol st.1 c with
  | none =>
    simp only [hla]
    refine ⟨lookupCol_setCol_other _ _ _ _ hne, ?_⟩
    cases hld : lookupCol st.2 c with
    | none =>
      rw [lookupCol_setCol_self]
      exact lookupCol_setCol_other _ _ _ _ hne
    | some fd => exact lookupCol_setCol_other _ _ _ _ hne
  | some fa =>
    simp only [hla]
    refine ⟨lookupCol_setCol_other _ _ _ _ hne, ?_⟩
    cases hld : lookupCol st.2 c with
    | none =>
      rw [lookupCol_setCol_self]
      exact lookupCol_setCol_other _ _ _ _ hne
    | some fd => exact lookupCol_setCol_other _ _ _ _ hne

theorem ensureFold_wf (rows : List Row) (allCols : List JStr) :
    ∀ (cols : List JStr) (st : FilterState × FilterState) (col : JStr),
      (col ∈ cols ∨ (wellFormedAt st.1 col ∧ wellFormedAt st.2 col)) →
      wellFormedAt (cols.foldl (ensureCol rows allCols) st).1 col ∧
      wellFormedAt (cols.foldl (ensureCol rows allCols) st).2 col := by
  intro cols
  induction cols with
  | nil =>
    intro st col h
    rcases h with h | h
    · simp at h
    · exact h
  | cons c cs ih =>
    intro st col h
    rw [List.foldl_cons]
    by_cases hc : col = c
    · subst hc
      exact ih _ col (Or.inr (ensureCol_wf_self rows allCols st col))
    · rcases h with h | h
      · rcases List.mem_cons.mp h with rfl | hmem
        · exact absurd rfl hc
        · exact ih _ col (Or.inl hmem)
      · obtain ⟨h1, h2⟩ := ensureCol_lookup_other rows allCols st c col hc
        exact ih _ col (Or.inr ⟨(wellFormedAt_congr h1).mpr h.1,
          (wellFormedAt_congr h2).mpr h.2⟩)

/-- `ensureStateSchemas` initializes and repairs every column of the
column list, in both applied and draft state. -/
theorem ensureStateSchemas_wf (rows : List Row) (cols : List JStr)
    (st : FilterState × FilterState) (col : JStr) (hcol : col ∈ cols) :
    wellFormedAt (ensureStateSchemas rows cols st).1 col ∧
    wellFormedAt (ensureStateSchemas rows cols st).2 col :=
  ensureFold_wf rows cols cols st col (Or.inl hcol)

/-- The draft reclassification of `buildFiltersUI` keeps every column
well-formed. -/
theorem reclassDraftCol_wf (rows : List Row) (allCols : List JStr)
    (a d : FilterState) (c col : JStr) (h : wellFormedAt d col) :
    wellFormedAt (reclassDraftCol rows allCols a d c) col := by
  unfold reclassDraftCol
  split
  · exact h
  · rename_i f hld
    split
    · rename_i hnf
      have hnf' : isForcedMulti c = false := by simpa using hnf
      dsimp only
      split
      · by_cases hgc : col = c
        · subst hgc
          exact ⟨_, lookupCol_setCol_self _ _ _,
            ⟨fun ht => absurd ht multi_ne_text, fun _ => ⟨[], rfl⟩⟩,
            fun hf => absurd hf (by simp [hnf'])⟩
        · exact (wellFormedAt_congr (lookupCol_setCol_other _ _ _ _ hgc)).mpr h
      · split
        · by_cases hgc : col = c
          · subst hgc
            exact ⟨_, lookupCol_setCol_self _ _ _,
              ⟨fun _ => ⟨[], rfl⟩, fun hm => absurd hm text_ne_multi⟩,
              fun hf => absurd hf (by simp [hnf'])⟩
          · exact (wellFormedAt_congr (lookupCol_setCol_other _ _ _ _ hgc)).mpr h
        · exact h
    · split
      · by_cases hgc : col = c
        · subst hgc
          exact ⟨_, lookupCol_setCol_self _ _ _,
            ⟨fun ht => absurd ht multi_ne_text, fun _ => ⟨[], rfl⟩⟩, fun _ => rfl⟩
        · exact (wellFormedAt_congr (lookupCol_setCol_other _ _ _ _ hgc)).mpr h
      · exact h

theorem reclassFold_wf (rows : List Row) (allCols : List JStr) (a : FilterState) :
    ∀ (cols : List JStr) (d : FilterState) (col : JStr),
      wellFormedAt d col →
      wellFormedAt (cols.foldl (reclassDraftCol rows allCols a) d) col := by
  intro cols
  induction cols with
  | nil => intro d col h; exact h
  | cons c cs ih =>
    intro d col h
    rw [List.foldl_cons]
    exact ih _ col (reclassDraftCol_wf rows allCols a d c col h)

/-- Counterexample to C6 as stated: on a one-column dataset whose applied
and draft descriptors are both `(text, "hello")`, the `buildFiltersUI`
reclassification flips the column's effective type to multi — but only
the draft descriptor is reset to the empty multi value; the applied
descriptor keeps the stale `text` tag and its non-empty value, so the
reset does not happen "in both draft and applied state". -/
theorem c6_selfheal_counterexample :
    (buildFiltersUIState w6rows [chars "A"] w6st w6st).2.columns =
      [(chars "A", ⟨chars "multi", JSVal.arr [], true⟩)] ∧
    (buildFiltersUIState w6rows [chars "A"] w6st w6st).1.columns =
      [(chars "A", ⟨chars "text", JSVal.str (chars "hello"), true⟩)] :=
  ⟨by decide, by decide⟩

/-- C6 as amended: (1) when the `buildFiltersUI` reclassification flips a
column's effective type, the *draft* descriptor's value is reset to the
empty value of the new type (the applied state is only read there); (2)
the `ensureStateSchemas` repair coerces a value whose shape mismatches
its text/multi tag to the empty value of that tag and always yields a
well-shaped descriptor; (3) after the `buildFiltersUI` pass every listed
column holds a well-typed descriptor in both draft and applied state. -/
theorem c6_descriptor_selfheal_amended (rows : List Row) (cols : List JStr)
    (a d : FilterState) (c col : JStr) (f f' : FilterDesc) :
    (lookupCol d c = some f →
      lookupCol (reclassDraftCol rows cols a d c) c = some f' →
      f'.type ≠ f.type →
      (f'.type = chars "multi" ∧ f'.value = JSVal.arr []) ∨
      (f'.type = chars "text" ∧ f'.value = JSVal.str [])) ∧
    shapeOk (repairDesc c f) ∧
    (f.type = chars "multi" → f.value.isArr = false →
      (repairDesc c f).value = JSVal.arr []) ∧
    (isForcedMulti c = false → f.type = chars "text" → f.value.isArr = true →
      (repairDesc c f).value = JSVal.str []) ∧
    (col ∈ cols →
      wellFormedAt (buildFiltersUIState rows cols a d).1 col ∧
      wellFormedAt (buildFiltersUIState rows cols a d).2 col) := by
  refine ⟨?_, repairDesc_shapeOk c f, repairDesc_multi_mismatch c f,
    repairDesc_text_mismatch c f, ?_⟩
  · intro h1 h2 hne
    unfold reclassDraftCol at h2
    split at h2
    · rename_i heq
      exact absurd (h1.symm.trans heq) (by simp)
    · rename_i f2 heq
      have hf2 : f2 = f := by
        have := h1.symm.trans heq
        exact (Option.some.inj this).symm
      subst hf2
      split at h2
      · dsimp only at h2
        split at h2
        · rw [lookupCol_setCol_self] at h2
          obtain rfl := Option.some.inj h2
          exact Or.inl ⟨rfl, rfl⟩
        · split at h2
          · rw [lookupCol_setCol_self] at h2
            obtain rfl := Option.some.inj h2
            exact Or.inr ⟨rfl, rfl⟩
          · rw [h1] at h2
            obtain rfl := Option.some.inj h2
            exact absurd rfl hne
      · split at h2
        · rw [lookupCol_setCol_self] at h2
          obtain rfl := Option.some.inj h2
          exact Or.inl ⟨rfl, rfl⟩
        · rw [h1] at h2
          obtain rfl := Option.some.inj h2
          exact absurd rfl hne
  · intro hcol
    unfold buildFiltersUIState
    dsimp only
    exact ⟨(ensureStateSchemas_wf rows cols (a, d) col hcol).1,
      reclassFold_wf rows cols _ cols _ col
        (ensureStateSchemas_wf rows cols (a, d) col hcol).2⟩

/-- Concrete instantiation of the amended C6 theorem on the witness
state: the flipped draft descriptor is the empty multi descriptor, the
repair of the witness descriptor is well-shaped, and both post-pass
states are well-formed at column `A`. -/
theorem c6_descriptor_selfheal_amended_witness :
    ((w6desc'.type = chars "multi" ∧ w6desc'.value = JSVal.arr []) ∨
      (w6desc'.type = chars "text" ∧ w6desc'.value = JSVal.str [])) ∧
    shapeOk (repairDesc (chars "A") w6desc) ∧
    (wellFormedAt (buildFiltersUIState w6rows [chars "A"] w6st w6st).1 (chars "A") ∧
      wellFormedAt (buildFiltersUIState w6rows [chars "A"] w6st w6st).2 (chars "A")) := by
  have H := c6_descriptor_selfheal_amended w6rows [chars "A"] w6st w6st
    (chars "A") (chars "A") w6desc w6desc'
  exact ⟨H.1 (by decide) (by decide) (by decide), H.2.1, H.2.2.2.2 (by decide)⟩

/-! ## C7: the sort engine -/

theorem char_toNat_ofNat_valid {n : Nat} (h : n.isValidChar) :
    (Char.ofNat n).toNat = n := by
  rw [Char.ofNat, dif_pos h]
  simp [Char.ofNatAux, Char.toNat, UInt32.toNat]

theorem charToLower_idem (c : Char) :
    Char.toLower (Char.toLower c) = Char.toLower c := by
  by_cases h : c.toNat ≥ 65 ∧ c.toNat ≤ 90
  · have h1 : Char.toLower c = Char.ofNat (c.toNat + 32) := by
      simp only [Char.toLower]
      rw [if_pos h]
    rw [h1]
    have hval : (Char.ofNat (c.toNat + 32)).toNat = c.toNat + 32 :=
      char_toNat_ofNat_valid (Or.inl (by omega))
    simp only [Char.toLower]
    rw [if_neg (by rw [hval]; omega)]
  · have h1 : Char.toLower c = c := by
      simp only [Char.toLower]
      rw [if_neg h]
    rw [h1, h1]

theorem lowerCL_idem (l : JStr) : lowerCL (lowerCL l) = lowerCL l := by
  unfold lowerCL
  rw [List.map_map]
  apply List.map_congr_left
  intro c _
  exact charToLower_idem c

theorem insertSorted_perm (cmp : Row → Row → Int) (x : Row) (l : List Row) :
    (insertSorted cmp x l).Perm (x :: l) := by
  induction l with
  | nil => exact List.Perm.refl _
  | cons y ys ih =>
    unfold insertSorted
    by_cases h : cmp x y < 0
    · rw [if_pos h]
    · rw [if_neg h]
      exact (List.Perm.cons y ih).trans (List.Perm.swap x y ys)

theorem stableSortBy_perm (cmp : Row → Row → Int) (l : List Row) :
    (stableSortBy cmp l).Perm l := by
  induction l with
  | nil => exact List.Perm.refl _
  | cons x xs ih =>
    unfold stableSortBy
    exact ((insertSorted_perm cmp x (stableSortBy cmp xs)).trans
      (List.Perm.cons x ih))

theorem sortRows_perm (st : SortState) (rows : List Row) :
    (sortRows st rows).Perm rows := by
  unfold sortRows
  split
  · exact List.Perm.refl _
  · split
    · exact List.Perm.refl _
    · exact stableSortBy_perm _ rows

/-- C7: with no sort column `sortRows` is the identity on the row
sequence; with a sort column, two rows compare numerically exactly when
both normalized values convert to finite JS numbers and neither is the
empty string, and otherwise by the modelled locale-aware collator
(case-insensitive — invariant under case-folding its inputs — and
numeric-sequence-aware); descending negates the ascending comparison; the
output is a permutation of the input and the input list is never mutated
(the embedding is pure; the source sorts a copy `[...rows]`); and sorting
the values `["10","2","item9","item10"]` ascending yields
`["2","10","item9","item10"]`. -/
theorem c7_sort_engine (dir col : JStr) (a b : Row) (rows : List Row)
    (x y : JsNum) (z : Int) :
    (sortRows ⟨none, dir⟩ rows = rows) ∧
    (jsNumberFinite (normalizeValue (rowGet a col)) = some x →
      jsNumberFinite (normalizeValue (rowGet b col)) = some y →
      normalizeValue (rowGet a col) ≠ [] →
      normalizeValue (rowGet b col) ≠ [] →
      rowCmp col a b = cmpJsNum x y) ∧
    ((jsNumberFinite (normalizeValue (rowGet a col)) = none ∨
      jsNumberFinite (normalizeValue (rowGet b col)) = none ∨
      normalizeValue (rowGet a col) = [] ∨
      normalizeValue (rowGet b col) = []) →
      rowCmp col a b = localeCompareModel (normalizeValue (rowGet a col))
        (normalizeValue (rowGet b col))) ∧
    (dirCmp (chars "desc") z = -dirCmp (chars "asc") z) ∧
    (localeCompareModel (lowerCL (normalizeValue (rowGet a col)))
        (lowerCL (normalizeValue (rowGet b col))) =
      localeCompareModel (normalizeValue (rowGet a col))
        (normalizeValue (rowGet b col))) ∧
    ((sortRows ⟨some col, dir⟩ rows).Perm rows) ∧
    ((sortRows ⟨some (chars "v"), chars "asc"⟩
        [[(chars "v", chars "10")], [(chars "v", chars "2")],
         [(chars "v", chars "item9")], [(chars "v", chars "item10")]]).map
      (fun r => normalizeValue (rowGet r (chars "v"))) =
      [chars "2", chars "10", chars "item9", chars "item10"]) ∧
    (localeCompareModel (chars "item2") (chars "item10") = -1 ∧
      localeCompareModel (chars "ABC") (chars "abc") = 0) := by
  refine ⟨rfl, ?_, ?_, rfl, ?_, sortRows_perm _ rows, by decide, by decide, by decide⟩
  · intro h1 h2 h3 h4
    unfold rowCmp
    dsimp only
    rw [h1, h2]
    rw [if_pos (by simp [List.isEmpty_iff, h3, h4])]
    rfl
  · intro h
    unfold rowCmp
    dsimp only
    rcases h with h | h | h | h <;> simp [h]
  · unfold localeCompareModel
    rw [lowerCL_idem, lowerCL_idem]

/-- Concrete instantiation of the C7 comparator clauses: `"10"` and `"2"`
compare numerically (10 after 2), while `"item9"` against `"2"` falls to
the collator. -/
theorem c7_sort_engine_witness :
    rowCmp (chars "v") [(chars "v", chars "10")] [(chars "v", chars "2")] =
      cmpJsNum (10, 0) (2, 0) ∧
    rowCmp (chars "v") [(chars "v", chars "item9")] [(chars "v", chars "2")] =
      localeCompareModel (normalizeValue (rowGet [(chars "v", chars "item9")] (chars "v")))
        (normalizeValue (rowGet [(chars "v", chars "2")] (chars "v"))) := by
  constructor
  · exact (c7_sort_engine (chars "asc") (chars "v")
      [(chars "v", chars "10")] [(chars "v", chars "2")] [] (10, 0) (2, 0) 0).2.1
      (by decide) (by decide) (by decide) (by decide)
  · exact (c7_sort_engine (chars "asc") (chars "v")
      [(chars "v", chars "item9")] [(chars "v", chars "2")] [] (0, 0) (0, 0) 0).2.2.1
      (Or.inl (by decide))

/-! ## C8: CSV escaping and round trip -/

theorem doubleQuotes_eq_nil (r : JStr) : doubleQuotes r = [] ↔ r = [] := by
  cases r with
  | nil => simp [doubleQuotes]
  | cons c t =>
    unfold doubleQuotes
    by_cases h : c == '"'
    · rw [if_pos h]; simp
    · rw [if_neg h]; simp

theorem collapseQuotes_cons2 (a b : Char) (r : JStr) :
    collapseQuotes (a :: b :: r) =
      if a == '"' && b == '"' then '"' :: collapseQuotes r
      else a :: collapseQuotes (b :: r) := rfl

theorem collapseQuotes_doubleQuotes (s : JStr) :
    collapseQuotes (doubleQuotes s) = s := by
  induction s with
  | nil => rfl
  | cons c r ih =>
    unfold doubleQuotes
    by_cases h : c == '"'
    · rw [if_pos h, collapseQuotes_cons2, if_pos (by simp)]
      rw [ih, beq_iff_eq.mp h]
    · rw [if_neg h]
      cases hD : doubleQuotes r with
      | nil =>
        have : r = [] := (doubleQuotes_eq_nil r).mp hD
        subst this
        rfl
      | cons d ds =>
        rw [collapseQuotes_cons2, if_neg (by simp [h])]
        rw [← hD, ih]

theorem unquoteField_quote (rest : JStr) :
    unquoteField ('"' :: rest) =
      collapseQuotes (if rest.getLast? == some '"' then rest.dropLast else rest) := rfl

theorem unquoteField_escapeCsvValue (s : JStr) :
    unquoteField (escapeCsvValue (some s)) = trimCL s := by
  unfold escapeCsvValue
  simp only [normalizeValue]
  by_cases h : hasCsvSpecial (trimCL s) = true
  · rw [if_pos h, unquoteField_quote]
    have hlast : ((doubleQuotes (trimCL s) ++ ['"']).getLast? == some '"') = true := by
      rw [List.getLast?_concat]
      rfl
    rw [if_pos hlast, List.dropLast_concat]
    exact collapseQuotes_doubleQuotes (trimCL s)
  · rw [if_neg h]
    have hnq : ∀ c ∈ trimCL s, ¬c = '"' := by
      intro c hc hq
      exact h (List.any_eq_true.mpr ⟨c, hc, by simp [hq]⟩)
    cases hts : trimCL s with
    | nil => rfl
    | cons c0 t0 =>
      have hc0 : ¬c0 = '"' := by
        apply hnq
        rw [hts]
        simp
      unfold unquoteField
      split
      · rename_i rest heq
        exact absurd (List.cons.inj heq).1 hc0
      · rfl

theorem splitQA_cons_plain (sep c : Char) (l : JStr)
    (hs : ¬c = sep) (hq : ¬c = '"') :
    splitQA sep (c :: l) false =
      (match splitQA sep l false with
       | [] => [[c]]
       | s :: ss => (c :: s) :: ss) := by
  conv_lhs => unfold splitQA
  rw [if_neg (by simp [hs])]
  have : (if c == '"' then !false else false) = false := by
    rw [if_neg (by simp [hq])]
  rw [this]

theorem splitQA_cons_sep (sep : Char) (l : JStr) :
    splitQA sep (sep :: l) false = [] :: splitQA sep l false := by
  conv_lhs => unfold splitQA
  rw [if_pos (by simp)]

theorem splitQA_append_plain (sep : Char) (p l : JStr)
    (hp : ∀ c ∈ p, ¬c = sep ∧ ¬c = '"') :
    ∀ s ss, splitQA sep l false = s :: ss →
      splitQA sep (p ++ l) false = (p ++ s) :: ss := by
  induction p with
  | nil =>
    intro s ss h
    simpa using h
  | cons c p' ih =>
    intro s ss h
    have hc := hp c (by simp)
    rw [List.cons_append, splitQA_cons_plain sep c (p' ++ l) hc.1 hc.2]
    rw [ih (fun x hx => hp x (by simp [hx])) s ss h]
    rfl

theorem splitQA_plain (sep : Char) (p : JStr)
    (hp : ∀ c ∈ p, ¬c = sep ∧ ¬c = '"') :
    splitQA sep p false = [p] := by
  have := splitQA_append_plain sep p [] hp [] []
  simpa using this rfl

/-- Splitting the separator-join of quote-free, separator-free pieces
recovers the pieces. -/
theorem splitQA_intercalate (sep : Char) (pieces : List JStr)
    (hne : pieces ≠ [])
    (hp : ∀ p ∈ pieces, ∀ c ∈ p, ¬c = sep ∧ ¬c = '"') :
    splitQA sep ((pieces.intersperse [sep]).flatten) false = pieces := by
  induction pieces with
  | nil => exact absurd rfl hne
  | cons p rest ih =>
    cases rest with
    | nil =>
      simp only [List.intersperse_singleton, List.flatten]
      have := splitQA_plain sep p (hp p (by simp))
      simpa using this
    | cons q rest' =>
      have hjoin : (((p :: q :: rest').intersperse [sep]).flatten) =
          p ++ (sep :: ((q :: rest').intersperse [sep]).flatten) := by
        rw [List.intersperse_cons_cons]
        simp
      rw [hjoin]
      have hrec := ih (by simp) (fun x hx => hp x (List.mem_cons_of_mem p hx))
      cases hsp : splitQA sep (((q :: rest').intersperse [sep]).flatten) false with
      | nil => rw [hsp] at hrec; exact absurd hrec.symm (by simp)
      | cons s ss =>
        have hstep : splitQA sep (sep :: ((q :: rest').intersperse [sep]).flatten) false =
            [] :: s :: ss := by
          rw [splitQA_cons_sep, hsp]
        have := splitQA_append_plain sep p
          (sep :: ((q :: rest').intersperse [sep]).flatten)
          (hp p (by simp)) [] (s :: ss) hstep
        rw [this]
        rw [hsp] at hrec
        rw [List.append_nil]
        rw [hrec]

theorem hasCsvSpecial_of_mem {s : JStr} {ch : Char}
    (hin : ch ∈ s) (hch : (ch == '"' || ch == ',' || ch == '\n') = true) :
    hasCsvSpecial s = true := by
  unfold hasCsvSpecial
  rw [List.any_eq_true]
  exact ⟨ch, hin, hch⟩

theorem mem_intersperse {α : Type} {x s : α} :
    ∀ {l : List α}, x ∈ l.intersperse s → x ∈ l ∨ x = s := by
  intro l
  induction l with
  | nil => intro h; simp at h
  | cons a t ih =>
    intro h
    cases t with
    | nil =>
      simp only [List.intersperse_singleton] at h
      exact Or.inl h
    | cons b t2 =>
      rw [List.intersperse_cons_cons] at h
      rcases List.mem_cons.mp h with rfl | h2
      · exact Or.inl (by simp)
      · rcases List.mem_cons.mp h2 with rfl | h3
        · exact Or.inr rfl
        · rcases ih h3 with h4 | h4
          · exact Or.inl (List.mem_cons_of_mem _ h4)
          · exact Or.inr h4

theorem unquoteField_escape_opt (v : Option JStr) :
    unquoteField (escapeCsvValue v) = normalizeValue v := by
  cases v with
  | none => rfl
  | some s => exact unquoteField_escapeCsvValue s

theorem escapeCsvValue_plain (v : Option JStr)
    (h : hasCsvSpecial (normalizeValue v) = false) :
    escapeCsvValue v = normalizeValue v := by
  unfold escapeCsvValue
  rw [if_neg (by simp [h])]

/-- Characters of a comma-joined line come from its escaped cells or are
the comma itself. -/
theorem mem_csvLine {ch : Char} {cells : List (Option JStr)}
    (h : ch ∈ csvLine cells) :
    (∃ cell ∈ cells, ch ∈ escapeCsvValue cell) ∨ ch = ',' := by
  unfold csvLine at h
  rcases List.mem_flatten.mp h with ⟨piece, hpiece, hch⟩
  rcases mem_intersperse hpiece with h1 | h1
  · rcases List.mem_map.mp h1 with ⟨cell, hcell, rfl⟩
    exact Or.inl ⟨cell, hcell, hch⟩
  · subst h1
    have hcomma : chars "," = [','] := rfl
    rw [hcomma] at hch
    exact Or.inr (List.mem_singleton.mp hch)

/-- C8 as amended: a cell survives the quote/escape round trip (yielding
its normalized form); a cell is emitted verbatim exactly when it contains
no comma, quote or newline, and is quote-wrapped with internal quotes
doubled otherwise; and for special-free, trimmed column names and
special-free cell values, parsing the exported text recovers the header
and the exact cell matrix — provided no exported line is empty (a
single-column dataset with an empty value exports an empty line, which
the empty-line-skipping parse drops). -/
theorem c8_csv_roundtrip_amended (columns : List JStr) (rows : List Row)
    (hcols_ne : columns ≠ [])
    (hcols : ∀ c ∈ columns, trimCL c = c ∧ hasCsvSpecial c = false)
    (hcells : ∀ r ∈ rows, ∀ c ∈ columns,
      hasCsvSpecial (normalizeValue (rowGet r c)) = false)
    (hheader : csvLine (columns.map some) ≠ [])
    (hlines : ∀ r ∈ rows, csvLine (columns.map (fun c => rowGet r c)) ≠ []) :
    (∀ s, unquoteField (escapeCsvValue (some s)) = trimCL s) ∧
    (∀ s, trimCL s = s → hasCsvSpecial s = false → escapeCsvValue (some s) = s) ∧
    (∀ s, trimCL s = s → hasCsvSpecial s = true →
      escapeCsvValue (some s) = '"' :: (doubleQuotes s ++ ['"'])) ∧
    parseCsvCells (exportCsvText columns rows) =
      columns :: projectRows columns rows := by
  refine ⟨unquoteField_escapeCsvValue, ?_, ?_, ?_⟩
  · intro s ht hs
    unfold escapeCsvValue
    simp only [normalizeValue, ht]
    rw [if_neg (by simp [hs])]
  · intro s ht hs
    unfold escapeCsvValue
    simp only [normalizeValue, ht]
    rw [if_pos hs]
  · have hHeq : csvLine (columns.map some) =
        ((columns.map (fun c => escapeCsvValue (some c))).intersperse [',']).flatten := by
      unfold csvLine
      rw [List.map_map]
      rfl
    have hLeq : ∀ r, csvLine (columns.map (fun c => rowGet r c)) =
        ((columns.map (fun c => escapeCsvValue (rowGet r c))).intersperse [',']).flatten := by
      intro r
      unfold csvLine
      rw [List.map_map]
      rfl
    have hEsc : ∀ c ∈ columns, escapeCsvValue (some c) = c := by
      intro c hc
      have h1 := (hcols c hc).1
      have h2 := (hcols c hc).2
      unfold escapeCsvValue
      simp only [normalizeValue, h1]
      rw [if_neg (by simp [h2])]
    have hEscCell : ∀ r ∈ rows, ∀ c ∈ columns,
        escapeCsvValue (rowGet r c) = normalizeValue (rowGet r c) :=
      fun r hr c hc => escapeCsvValue_plain _ (hcells r hr c hc)
    -- plainness of the header and data lines w.r.t. newline and quote
    have hplainH : ∀ ch ∈ csvLine (columns.map some), ¬ch = '\n' ∧ ¬ch = '"' := by
      intro ch hch
      rcases mem_csvLine hch with ⟨cell, hcell, hin⟩ | rfl
      · rcases List.mem_map.mp hcell with ⟨c, hc, rfl⟩
        rw [hEsc c hc] at hin
        have := (hcols c hc).2
        refine ⟨fun he => ?_, fun he => ?_⟩ <;> subst he <;>
          exact absurd (hasCsvSpecial_of_mem hin (by decide)) (by simp [this])
      · exact ⟨by decide, by decide⟩
    have hplainL : ∀ r ∈ rows, ∀ ch ∈ csvLine (columns.map (fun c => rowGet r c)),
        ¬ch = '\n' ∧ ¬ch = '"' := by
      intro r hr ch hch
      rcases mem_csvLine hch with ⟨cell, hcell, hin⟩ | rfl
      · rcases List.mem_map.mp hcell with ⟨c, hc, rfl⟩
        rw [hEscCell r hr c hc] at hin
        have := hcells r hr c hc
        refine ⟨fun he => ?_, fun he => ?_⟩ <;> subst he <;>
          exact absurd (hasCsvSpecial_of_mem hin (by decide)) (by simp [this])
      · exact ⟨by decide, by decide⟩
    -- record split recovers the lines
    have hrecords : splitQA '\n' (exportCsvText columns rows) false =
        csvLine (columns.map some) ::
          rows.map (fun r => csvLine (columns.map (fun c => rowGet r c))) := by
      unfold exportCsvText
      have : (chars "\n") = ['\n'] := rfl
      rw [this]
      have hflat : ((csvLine (columns.map some) ::
          rows.map (fun r => csvLine (columns.map (fun c => rowGet r c)))).intersperse
            ['\n']).flatten =
          ((csvLine (columns.map some) ::
          rows.map (fun r => csvLine (columns.map (fun c => rowGet r c)))).intersperse
            [('\n' : Char)]).flatten := rfl
      apply splitQA_intercalate '\n' _ (by simp)
      intro p hp ch hch
      rcases List.mem_cons.mp hp with rfl | hp2
      · exact hplainH ch hch
      · rcases List.mem_map.mp hp2 with ⟨r, hr, rfl⟩
        exact hplainL r hr ch hch
    unfold parseCsvCells
    rw [hrecords]
    -- no exported line is empty, so the filter keeps all of them
    have hfilter : (csvLine (columns.map some) ::
        rows.map (fun r => csvLine (columns.map (fun c => rowGet r c)))).filter
          (fun l => !l.isEmpty) =
        csvLine (columns.map some) ::
          rows.map (fun r => csvLine (columns.map (fun c => rowGet r c))) := by
      rw [List.filter_eq_self]
      intro l hl
      rcases List.mem_cons.mp hl with rfl | hl2
      · simp [List.isEmpty_iff, hheader]
      · rcases List.mem_map.mp hl2 with ⟨r, hr, rfl⟩
        simp [List.isEmpty_iff, hlines r hr]
    rw [hfilter]
    -- field split + unquote recovers header and every row
    rw [List.map_cons]
    congr 1
    · rw [hHeq]
      have hsplit : splitQA ',' ((columns.map
          (fun c => escapeCsvValue (some c))).intersperse [',']).flatten false =
          columns.map (fun c => escapeCsvValue (some c)) := by
        apply splitQA_intercalate ',' _ (by simp [hcols_ne])
        intro p hp ch hch
        rcases List.mem_map.mp hp with ⟨c, hc, rfl⟩
        rw [hEsc c hc] at hch
        have := (hcols c hc).2
        refine ⟨fun he => ?_, fun he => ?_⟩ <;> subst he <;>
          exact absurd (hasCsvSpecial_of_mem hch (by decide)) (by simp [this])
      rw [hsplit, List.map_map]
      have : ∀ c ∈ columns, (unquoteField ∘ fun c => escapeCsvValue (some c)) c = c := by
        intro c hc
        simp only [Function.comp_apply, unquoteField_escape_opt]
        simp only [normalizeValue]
        exact (hcols c hc).1
      rw [List.map_congr_left this]
      exact List.map_id columns
    · rw [List.map_map]
      unfold projectRows
      apply List.map_congr_left
      intro r hr
      simp only [Function.comp_apply]
      rw [hLeq r]
      have hsplit : splitQA ',' ((columns.map
          (fun c => escapeCsvValue (rowGet r c))).intersperse [',']).flatten false =
          columns.map (fun c => escapeCsvValue (rowGet r c)) := by
        apply splitQA_intercalate ',' _ (by simp [hcols_ne])
        intro p hp ch hch
        rcases List.mem_map.mp hp with ⟨c, hc, rfl⟩
        rw [hEscCell r hr c hc] at hch
        have := hcells r hr c hc
        refine ⟨fun he => ?_, fun he => ?_⟩ <;> subst he <;>
          exact absurd (hasCsvSpecial_of_mem hch (by decide)) (by simp [this])
      rw [hsplit, List.map_map]
      apply List.map_congr_left
      intro c hc
      simp only [Function.comp_apply]
      exact unquoteField_escape_opt (rowGet r c)

/-- Counterexample to C8's unconditional round trip: a one-column dataset
whose single row holds the empty (special-free) value exports as the text
`"A\n"`; the empty-line-skipping parse returns the header and zero data
rows, losing the row. -/
theorem c8_csv_roundtrip_counterexample :
    hasCsvSpecial ([] : JStr) = false ∧
    parseCsvCells (exportCsvText [chars "A"] [[(chars "A", chars "")]]) =
      [[chars "A"]] ∧
    projectRows [chars "A"] [[(chars "A", chars "")]] = [[[]]] := by
  refine ⟨rfl, by decide, by decide⟩

/-- Concrete instantiation of the amended C8 theorem: a 2-column, 2-row
dataset (with a missing cell, read back as the empty string) parses back
to exactly its header and cell matrix, and a value full of specials
survives the quote/escape round trip. -/
theorem c8_csv_roundtrip_amended_witness :
    parseCsvCells (exportCsvText [chars "A", chars "B"]
        [[(chars "A", chars "x")],
         [(chars "A", chars "a"), (chars "B", chars "b")]]) =
      [chars "A", chars "B"] ::
        projectRows [chars "A", chars "B"]
          [[(chars "A", chars "x")],
           [(chars "A", chars "a"), (chars "B", chars "b")]] ∧
    unquoteField (escapeCsvValue (some (chars "a,\"b\"\nc"))) =
      trimCL (chars "a,\"b\"\nc") := by
  have H := c8_csv_roundtrip_amended [chars "A", chars "B"]
    [[(chars "A", chars "x")], [(chars "A", chars "a"), (chars "B", chars "b")]]
    (by decide) (by decide) (by decide) (by decide) (by decide)
  exact ⟨H.2.2.2, H.1 (chars "a,\"b\"\nc")⟩

/-! ## C9: preset persistence degradation -/

/-- C9: `readPresets` is total (a Lean function — the thrown SyntaxError
of `JSON.parse` is the `none` branch, caught by the try/catch) and for
every stored value that is absent or fails to parse as JSON it returns
the empty list. -/
theorem c9_presets_degrade (stored : Option JStr) :
    (stored = none → readPresets stored = JsonVal.arr []) ∧
    (∀ raw, stored = some raw → jsonParse raw = none →
      readPresets stored = JsonVal.arr []) := by
  constructor
  · intro h
    rw [h]
    rfl
  · intro raw hs hp
    rw [hs]
    have hsome : readPresets (some raw) =
        (if raw.isEmpty then JsonVal.arr []
         else match jsonParse raw with
              | some v => v
              | none => JsonVal.arr []) := rfl
    rw [hsome]
    by_cases he : raw.isEmpty
    · rw [if_pos he]
    · rw [if_neg he, hp]

/-- Concrete instantiation of C9: an absent key, an unterminated JSON
array, and plain garbage all read back as the empty preset list. -/
theorem c9_presets_degrade_witness :
    readPresets none = JsonVal.arr [] ∧
    readPresets (some (chars "[1, 2")) = JsonVal.arr [] ∧
    readPresets (some (chars "hello")) = JsonVal.arr [] := by
  refine ⟨(c9_presets_degrade none).1 rfl, ?_, ?_⟩
  · refine (c9_presets_degrade (some (chars "[1, 2"))).2 _ rfl ?_
    have h : (jsonParse (chars "[1, 2")).isNone = true := by decide
    exact Option.isNone_iff_eq_none.mp h
  · refine (c9_presets_degrade (some (chars "hello"))).2 _ rfl ?_
    have h : (jsonParse (chars "hello")).isNone = true := by decide
    exact Option.isNone_iff_eq_none.mp h

end Dashboard
